import Mathlib

/-!
Verification of the asset reconciliation core of this repository
(`dagster/_core/definitions/asset_reconciliation_sensor.py` and
`dagster/_utils/caching_instance_queryer.py`).

The Python source is shallowly embedded: Python sets and dicts are modelled as
lists (association lists for dicts), memoized methods as pure functions on an
abstract read-only store, machine integers as `Nat`/`Option Nat`, fallible code
as `Except`, and unbounded recursion on the (externally acyclic) asset graph as
fuel-indexed recursion.  External collaborators (the asset graph definition,
the event-log store, partition-mapping math) are abstract structure fields, as
the spec places them out of scope.
-/

deriving instance DecidableEq for Except

namespace AssetRecon

/-- Modelled from the spec: "AssetKey: unique identifier of a graph node"
(module `dagster._core.definitions.events` is not part of src).  We model a
key directly by its user string; `to_user_string`/`from_user_string` become
identities. -/
abbrev AssetKey := String

def AssetKey.toUserString (k : AssetKey) : String := k

def AssetKey.fromUserString (s : String) : AssetKey := s

/-- Embedding of `AssetKeyPartitionKey`: an asset key plus an optional
partition key, the atomic unit of reconciliation. -/
structure AssetKeyPartitionKey where
  assetKey : AssetKey
  partitionKey : Option String := none
  deriving DecidableEq, Repr

/-- Python truthiness of an optional int (`None` and `0` are falsy). -/
def truthyOptNat : Option Nat → Bool
  | some n => n ≠ 0
  | none => false

/-- Python truthiness of an optional string (`None` and `""` are falsy). -/
def truthyOptStr : Option String → Bool
  | some s => s ≠ ""
  | none => false

/-- Modelled from the spec/missing module `partition.ScheduleType`. -/
inductive ScheduleType
  | hourly
  | daily
  | weekly
  | monthly
  deriving DecidableEq, Repr

/-- Modelled from the missing module `auto_materialize_condition`:
the closed decision variant. -/
inductive AutoMaterializeDecisionType
  | materialize
  | skip
  | discard
  deriving DecidableEq, Repr

/-- Modelled from the spec: "AutoMaterializeCondition: closed tagged variant -
Missing, ParentMaterialized, ParentOutdated{waitingOn}, MaxMaterializationsExceeded"
(module `auto_materialize_condition` is not part of src). -/
inductive AutoMaterializeCondition
  | missing
  | parentMaterialized
  | parentOutdated (waitingOnAssetKeys : List AssetKey)
  | maxMaterializationsExceeded
  deriving DecidableEq, Repr

/-- Modelled from the spec: "Each maps to a decision in
{Materialize, Skip, Discard}": Missing and ParentMaterialized decide
Materialize, ParentOutdated decides Skip, MaxMaterializationsExceeded decides
Discard. -/
def AutoMaterializeCondition.decisionType :
    AutoMaterializeCondition → AutoMaterializeDecisionType
  | .missing => .materialize
  | .parentMaterialized => .materialize
  | .parentOutdated _ => .skip
  | .maxMaterializationsExceeded => .discard

/-- Modelled from the missing module `auto_materialize_policy`: the fields of
`AutoMaterializePolicy` used by the reconciliation core. -/
structure AutoMaterializePolicy where
  onMissing : Bool
  onNewParentData : Bool
  forFreshness : Bool
  maxMaterializationsPerMinute : Option Nat
  deriving DecidableEq, Repr

/-- Subsets of partition keys are serialized to strings; the concrete encoding
lives in the external partitions module, modelled here as a fixed injective-
enough canonical encoding. -/
def serializeSubset (partitionKeys : List String) : String :=
  String.intercalate "," partitionKeys

/-- Abstract interface of a `PartitionsDefinition` (external collaborator,
spec section 6): identity (Python object equality) via `defId`, the time
component used by `get_time_partitions_def`, key enumeration, per-definition
subset decoding (which may fail on an incompatible serialized subset), and
partition-scoped run tags. -/
structure PartitionsDefinition where
  defId : Nat
  timeScheduleType : Option ScheduleType
  isTimeWindow : Bool
  isDynamic : Bool
  lastPartitionKey : Option String
  partitionKeys : List String
  deserializeSubset : String → Option (List String)
  getTagsForPartitionKey : String → List (String × String)

/-- Result of `AssetGraph.get_parents_partitions`. -/
structure ParentsPartitionsResult where
  parentPartitions : List AssetKeyPartitionKey
  requiredButNonexistentParentsPartitions : List AssetKeyPartitionKey

/-- Abstract read-only dependency-graph provider (external collaborator, spec
section 6): per asset key it exposes parents, children, partitions definition,
declared auto-materialize policy, source/observable flags, partition-mapping
functions, repository grouping, and the grouping of candidates into
materialization units used by the breadth-first traversal. -/
structure AssetGraph where
  allAssetKeys : List AssetKey
  isSource : AssetKey → Bool
  isObservable : AssetKey → Bool
  getPartitionsDef : AssetKey → Option PartitionsDefinition
  getAutoMaterializePolicy : AssetKey → Option AutoMaterializePolicy
  hasDownstreamFreshnessPolicies : AssetKey → Bool
  getParents : AssetKey → List AssetKey
  getChildren : AssetKey → List AssetKey
  getParentsPartitions : AssetKeyPartitionKey → ParentsPartitionsResult
  getChildrenPartitionsOfUnpartitioned : AssetKey → List AssetKeyPartitionKey
  getDownstreamPartitions : AssetKey → AssetKey → List String → List String
  haveSamePartitioning : AssetKey → AssetKey → Bool
  isExternal : Bool
  getRepositoryHandle : AssetKey → Nat
  childUnits : AssetKeyPartitionKey → List (List AssetKeyPartitionKey)
  groupUnits : List AssetKeyPartitionKey → List (List AssetKeyPartitionKey)
  getAutoObserveIntervalMinutes : AssetKey → Option Nat

/-- An asset is partitioned iff it has a partitions definition. -/
def AssetGraph.isPartitioned (g : AssetGraph) (k : AssetKey) : Bool :=
  (g.getPartitionsDef k).isSome

/-- Materializable asset keys: all non-source keys. -/
def AssetGraph.materializableAssetKeys (g : AssetGraph) : List AssetKey :=
  g.allAssetKeys.filter (fun k => !g.isSource k)

/-- An asset has non-source parents iff some parent is not a source. -/
def AssetGraph.hasNonSourceParents (g : AssetGraph) (k : AssetKey) : Bool :=
  (g.getParents k).any (fun p => !g.isSource p)

/-- Root asset keys: materializable assets all of whose parents are sources. -/
def AssetGraph.rootAssetKeys (g : AssetGraph) : List AssetKey :=
  g.materializableAssetKeys.filter (fun k => !g.hasNonSourceParents k)

/-- Modelled from the spec: "Each group is further split by owning
repository/deployment (one run targets exactly one repository)". -/
def AssetGraph.splitAssetKeysByRepository (g : AssetGraph)
    (assetKeys : List AssetKey) : List (List AssetKey) :=
  ((assetKeys.map g.getRepositoryHandle).dedup).map
    (fun h => assetKeys.filter (fun k => g.getRepositoryHandle k = h))

/-! Association-list and set helpers modelling Python dicts and sets. -/

def lookupL {α β : Type} [DecidableEq α] : List (α × β) → α → Option β
  | [], _ => none
  | (a, b) :: rest, x => if a = x then some b else lookupL rest x

def lookupD {α β : Type} [DecidableEq α] (m : List (α × β)) (x : α) (d : β) : β :=
  (lookupL m x).getD d

/-- Add an element to a list-modelled set (no-op when present). -/
def insertL {α : Type} [DecidableEq α] (x : α) (l : List α) : List α :=
  if x ∈ l then l else l ++ [x]

/-- Union of list-modelled sets: add each element of `l₂` to `l₁`. -/
def unionL {α : Type} [DecidableEq α] (l₁ l₂ : List α) : List α :=
  l₂.foldl (fun acc a => insertL a acc) l₁

/-- Update a dict entry through `f`, defaulting an absent entry to `d`
(Python `defaultdict` access followed by mutation). -/
def updateMapWith {α β : Type} [DecidableEq α] (m : List (α × β)) (x : α)
    (d : β) (f : β → β) : List (α × β) :=
  match lookupL m x with
  | some _ => m.map (fun p => if p.1 = x then (p.1, f p.2) else p)
  | none => m ++ [(x, f d)]

/-- Abstract read access to the external event/materialization store for one
tick (spec section 6); the memoized derived reads of
`CachingInstanceQueryer` are defined below on top of these primitives. -/
structure InstanceQueryer where
  latestStorageIdsByAssetPartition :
    AssetKey → List (AssetKeyPartitionKey × Option Nat)
  dataVersionsAfter :
    AssetKey → List AssetKeyPartitionKey → Nat →
      List (AssetKeyPartitionKey × Nat)
  dataVersionsBefore :
    AssetKey → List AssetKeyPartitionKey → Nat →
      List (AssetKeyPartitionKey × Nat)
  activeBackfillTargets : List AssetKeyPartitionKey
  getFailedOrInProgressSubset : AssetKey → List String
  latestRecordRunId : AssetKeyPartitionKey → Option Nat → Option Nat
  isAssetPlannedForRun : Nat → AssetKey → Bool

/-- Embedding of
`CachingInstanceQueryer.get_latest_materialization_or_observation_storage_id`. -/
def InstanceQueryer.getLatestMaterializationOrObservationStorageId
    (q : InstanceQueryer) (ap : AssetKeyPartitionKey) : Option Nat :=
  (lookupL (q.latestStorageIdsByAssetPartition ap.assetKey) ap).join

/-- Embedding of
`CachingInstanceQueryer.asset_partition_has_materialization_or_observation`:
`(latest_storage_id or 0) > (after_cursor or 0)`. -/
def InstanceQueryer.assetPartitionHasMaterializationOrObservation
    (q : InstanceQueryer) (ap : AssetKeyPartitionKey)
    (afterCursor : Option Nat) : Bool :=
  (q.getLatestMaterializationOrObservationStorageId ap).getD 0 > afterCursor.getD 0

/-- Embedding of
`CachingInstanceQueryer.get_asset_partitions_updated_after_cursor`. -/
def getAssetPartitionsUpdatedAfterCursor (g : AssetGraph) (q : InstanceQueryer)
    (assetKey : AssetKey) (assetPartitions : Option (List AssetKeyPartitionKey))
    (afterCursor : Option Nat) : List AssetKeyPartitionKey :=
  if !q.assetPartitionHasMaterializationOrObservation ⟨assetKey, none⟩ afterCursor then
    []
  else
    let updatedAfterCursor := (q.latestStorageIdsByAssetPartition assetKey).filterMap
      (fun p => if p.2.getD 0 > afterCursor.getD 0 then some p.1 else none)
    let updatedAfterCursor :=
      match assetPartitions with
      | some aps => updatedAfterCursor.filter (fun ap => ap ∈ aps)
      | none => updatedAfterCursor
    if updatedAfterCursor.isEmpty then []
    else
      match afterCursor with
      | none => updatedAfterCursor
      | some after =>
        if !g.isObservable assetKey then updatedAfterCursor
        else
          let latestVersions := q.dataVersionsAfter assetKey updatedAfterCursor after
          let previousVersions := q.dataVersionsBefore assetKey updatedAfterCursor (after + 1)
          latestVersions.filterMap
            (fun p => if lookupL previousVersions p.1 ≠ some p.2 then some p.1 else none)

/-- Group asset partitions by asset key, keys in first-appearance order
(`defaultdict(list)`). -/
def groupByAssetKey (aps : List AssetKeyPartitionKey) :
    List (AssetKey × List AssetKeyPartitionKey) :=
  aps.foldl (fun acc ap => updateMapWith acc ap.assetKey [] (fun l => l ++ [ap])) []

/-- Embedding of `CachingInstanceQueryer.get_root_unreconciled_ancestors`.
The Python method recurses over the (externally acyclic) parent relation with
a memo table; memoization only affects cost, so the embedding uses a fuel
parameter instead, returning the empty set when fuel runs out (never reached
for fuel at least the graph depth). -/
def getRootUnreconciledAncestors (g : AssetGraph) (q : InstanceQueryer) :
    Nat → AssetKeyPartitionKey → List AssetKey
  | 0, _ => []
  | fuel + 1, ap =>
    -- always treat source assets as reconciled
    if g.isSource ap.assetKey then []
    else if !q.assetPartitionHasMaterializationOrObservation ap none then
      [ap.assetKey]
    else
      let timeOrDynamicPartitioned :=
        match g.getPartitionsDef ap.assetKey with
        | some pd => pd.isTimeWindow || pd.isDynamic
        | none => false
      let parentAssetPartitionsByKey :=
        groupByAssetKey (g.getParentsPartitions ap).parentPartitions
      parentAssetPartitionsByKey.foldl
        (fun acc p =>
          let parentKey := p.1
          let parentAssetPartitions := p.2
          -- ignore non-observable source parents
          if g.isSource parentKey && !g.isObservable parentKey then acc
          else if timeOrDynamicPartitioned && !g.isPartitioned parentKey then
            -- only check for existence of an upstream materialization
            if !(parentAssetPartitions.all
                (fun par => q.assetPartitionHasMaterializationOrObservation par none)) then
              insertL parentKey acc
            else acc
          else
            let updatedParentAssetPartitions :=
              getAssetPartitionsUpdatedAfterCursor g q parentKey
                (some parentAssetPartitions)
                (q.getLatestMaterializationOrObservationStorageId ap)
            let acc :=
              if !updatedParentAssetPartitions.isEmpty then
                insertL ap.assetKey acc
              else acc
            (parentAssetPartitions.filter
                (fun par => par ∉ updatedParentAssetPartitions)).foldl
              (fun a par => unionL a (getRootUnreconciledAncestors g q fuel par)) acc)
        []

/-- Embedding of `CachingInstanceQueryer.is_reconciled`. -/
def isReconciled (g : AssetGraph) (q : InstanceQueryer) (fuel : Nat)
    (ap : AssetKeyPartitionKey) : Bool :=
  (getRootUnreconciledAncestors g q fuel ap).isEmpty

/-- Modelled from the missing module `time_window_partitions`:
`get_time_partitions_def` extracts the time component of a partitions
definition; only its schedule type is consumed here. -/
def getTimePartitionsDef : Option PartitionsDefinition → Option ScheduleType
  | none => none
  | some pd => pd.timeScheduleType

/-- Embedding of `get_implicit_auto_materialize_policy`. -/
def getImplicitAutoMaterializePolicy (g : AssetGraph) (assetKey : AssetKey) :
    Option AutoMaterializePolicy :=
  match g.getAutoMaterializePolicy assetKey with
  | some policy => some policy
  | none =>
    let maxMaterializationsPerMinute : Option Nat :=
      match getTimePartitionsDef (g.getPartitionsDef assetKey) with
      | none => none
      | some sched => if sched = ScheduleType.hourly then some 24 else some 1
    some
      { onMissing := true
        onNewParentData := !g.hasDownstreamFreshnessPolicies assetKey
        forFreshness := true
        maxMaterializationsPerMinute := maxMaterializationsPerMinute }

/-- Embedding of `_decision_type_for_conditions`: precedence loop
Skip, Discard, Materialize over the decision types of the conditions; an empty
condition set yields no decision. -/
def decisionTypeForConditions (conditions : List AutoMaterializeCondition) :
    Option AutoMaterializeDecisionType :=
  if conditions.isEmpty then none
  else
    let conditionDecisionTypes := conditions.map (·.decisionType)
    if AutoMaterializeDecisionType.skip ∈ conditionDecisionTypes then some .skip
    else if AutoMaterializeDecisionType.discard ∈ conditionDecisionTypes then
      some .discard
    else if AutoMaterializeDecisionType.materialize ∈ conditionDecisionTypes then
      some .materialize
    else none

/-- Embedding of `_will_materialize_for_conditions`. -/
def willMaterializeForConditions (conditions : List AutoMaterializeCondition) :
    Bool :=
  decisionTypeForConditions conditions == some .materialize

/-- Embedding of `AssetReconciliationCursor` (sets and dicts as lists;
observation timestamps as exact numbers). -/
structure AssetReconciliationCursor where
  latestStorageId : Option Nat
  handledRootAssetKeys : List AssetKey
  handledRootPartitionsByAssetKey : List (AssetKey × List String)
  evaluationId : Nat
  lastObserveRequestTimestampByAssetKey : List (AssetKey × Nat)
  deriving DecidableEq, Repr

/-- Embedding of `AssetReconciliationCursor.empty`. -/
def AssetReconciliationCursor.empty : AssetReconciliationCursor :=
  { latestStorageId := none
    handledRootPartitionsByAssetKey := []
    handledRootAssetKeys := []
    evaluationId := 0
    lastObserveRequestTimestampByAssetKey := [] }

/-- Embedding of `AssetReconciliationCursor.was_previously_handled`. -/
def AssetReconciliationCursor.wasPreviouslyHandled
    (c : AssetReconciliationCursor) (assetKey : AssetKey) : Bool :=
  assetKey ∈ c.handledRootAssetKeys

/-- Embedding of `AssetReconciliationCursor.get_unhandled_partitions`:
all partition keys of the asset's partitions definition not in the handled
subset (`get_partition_keys_not_in_subset`); the handled subset defaults to
the empty subset. -/
def AssetReconciliationCursor.getUnhandledPartitions
    (c : AssetReconciliationCursor) (assetKey : AssetKey) (g : AssetGraph) :
    List String :=
  match g.getPartitionsDef assetKey with
  | none => []
  | some pd =>
    let handledSubset := lookupD c.handledRootPartitionsByAssetKey assetKey []
    pd.partitionKeys.filter (fun k => k ∉ handledSubset)

/-- Embedding of `AssetReconciliationCursor.with_updates`.  The
`check.invariant` raise is modelled as `Except.error`; note that the Python
guard `if latest_storage_id and self.latest_storage_id` uses truthiness, so
the invariant is only checked when both ids are non-`None` and nonzero, and
the result id is `latest_storage_id or self.latest_storage_id`. -/
def AssetReconciliationCursor.withUpdates (c : AssetReconciliationCursor)
    (latestStorageId : Option Nat)
    (conditionsByAssetPartition :
      List (AssetKeyPartitionKey × List AutoMaterializeCondition))
    (newlyMaterializedRootAssetKeys : List AssetKey)
    (newlyMaterializedRootPartitionsByAssetKey : List (AssetKey × List String))
    (evaluationId : Nat) (assetGraph : AssetGraph)
    (newlyObserveRequestedAssetKeys : List AssetKey)
    (observeRequestTimestamp : Nat) :
    Except String AssetReconciliationCursor :=
  let handledPair :=
    conditionsByAssetPartition.foldl
      (fun (acc : List (AssetKey × List String) × List AssetKey) p =>
        let ap := p.1
        let d := decisionTypeForConditions p.2
        if !assetGraph.hasNonSourceParents ap.assetKey
            && (d == some .discard || d == some .materialize) then
          if truthyOptStr ap.partitionKey then
            (updateMapWith acc.1 ap.assetKey []
              (fun l => insertL (ap.partitionKey.getD "") l), acc.2)
          else
            (acc.1, insertL ap.assetKey acc.2)
        else acc)
      ([], [])
  let handledRootPartitionsByAssetKey := handledPair.1
  let handledNonPartitionedRootAssets := handledPair.2
  let keysToMerge :=
    unionL (newlyMaterializedRootPartitionsByAssetKey.map Prod.fst)
      (handledRootPartitionsByAssetKey.map Prod.fst)
  let resultHandledRootPartitionsByAssetKey :=
    keysToMerge.foldl
      (fun acc assetKey =>
        let priorMaterializedPartitions :=
          lookupD c.handledRootPartitionsByAssetKey assetKey []
        let merged :=
          unionL priorMaterializedPartitions
            (lookupD newlyMaterializedRootPartitionsByAssetKey assetKey [] ++
              lookupD handledRootPartitionsByAssetKey assetKey [])
        updateMapWith acc assetKey [] (fun _ => merged))
      c.handledRootPartitionsByAssetKey
  let resultHandledRootAssetKeys :=
    unionL (unionL c.handledRootAssetKeys newlyMaterializedRootAssetKeys)
      handledNonPartitionedRootAssets
  let resultLastObserveRequestTimestampByAssetKey :=
    newlyObserveRequestedAssetKeys.foldl
      (fun acc assetKey =>
        updateMapWith acc assetKey 0 (fun _ => observeRequestTimestamp))
      c.lastObserveRequestTimestampByAssetKey
  if truthyOptNat latestStorageId ∧ truthyOptNat c.latestStorageId ∧
      latestStorageId.getD 0 < c.latestStorageId.getD 0 then
    .error "Latest storage ID should be >= previous latest storage ID"
  else
    .ok
      { latestStorageId :=
          if truthyOptNat latestStorageId then latestStorageId
          else c.latestStorageId
        handledRootAssetKeys := resultHandledRootAssetKeys
        handledRootPartitionsByAssetKey := resultHandledRootPartitionsByAssetKey
        evaluationId := evaluationId
        lastObserveRequestTimestampByAssetKey :=
          resultLastObserveRequestTimestampByAssetKey }

/-- Canonical encoding of a Python set of strings used by serialization:
a set is determined by its elements, encoded sorted without duplicates. -/
def canonicalStringSet (l : List String) : List String :=
  List.insertionSort (fun a b => a ≤ b) l.dedup

/-- Canonical encoding of a Python dict keyed by strings: entries sorted by
key (stably). -/
def canonicalAssoc {β : Type} (l : List (String × β)) : List (String × β) :=
  List.insertionSort (fun a b => a.1 ≤ b.1) l

/-- Object-form payload of a serialized cursor: the JSON fields emitted by
`AssetReconciliationCursor.serialize` (blob equality is determined by this
data, so the textual JSON rendering is not modelled). -/
structure SerializedCursorObjectData where
  latestStorageId : Option Nat
  handledRootAssetKeys : List String
  handledRootPartitionsByAssetKey : List (String × String)
  evaluationId : Nat
  lastObserveRequestTimestampByAssetKey : List (String × Nat)
  deriving DecidableEq, Repr

/-- Parsed serialized cursor: the current object form, or the legacy
3- or 4-element array form (spec section 9: the two decode paths are explicit
tagged variants). -/
inductive SerializedCursor
  | object (data : SerializedCursorObjectData)
  | legacyArray3 (latestStorageId : Option Nat)
      (handledRootAssetKeys : List String)
      (handledRootPartitionsByAssetKey : List (String × String))
  | legacyArray4 (latestStorageId : Option Nat)
      (handledRootAssetKeys : List String)
      (handledRootPartitionsByAssetKey : List (String × String))
      (evaluationId : Nat)
  deriving DecidableEq, Repr

/-- The per-asset serialized partition subsets carried by a serialized
cursor. -/
def SerializedCursor.handledRootPartitionsField :
    SerializedCursor → List (String × String)
  | .object d => d.handledRootPartitionsByAssetKey
  | .legacyArray3 _ _ p => p
  | .legacyArray4 _ _ p _ => p

/-- The per-entry decoding of a persisted per-asset partition subset in
`from_serialized`: skip the entry when the asset is no longer materializable
or has no partitions definition; substitute the empty subset when the
partitions definition cannot deserialize the stored subset. -/
def deserializeHandledEntry (assetGraph : AssetGraph)
    (p : String × String) : Option (AssetKey × List String) :=
  let key := AssetKey.fromUserString p.1
  if key ∈ assetGraph.materializableAssetKeys then
    match assetGraph.getPartitionsDef key with
    | none => none
    | some partitionsDef =>
      match partitionsDef.deserializeSubset p.2 with
      | some subset => some (key, subset)
      | none => some (key, [])
  else none

/-- Embedding of `AssetReconciliationCursor.from_serialized`: accepts the
object form and both legacy array forms; drops per-asset subsets whose asset
is no longer materializable or has no partitions definition, and substitutes
the empty subset when the partitions definition cannot deserialize the
stored subset. -/
def AssetReconciliationCursor.fromSerialized (cursor : SerializedCursor)
    (assetGraph : AssetGraph) : AssetReconciliationCursor :=
  let fields :=
    match cursor with
    | .legacyArray3 l h p => (l, h, p, 0, [])
    | .legacyArray4 l h p e => (l, h, p, e, [])
    | .object d =>
      (d.latestStorageId, d.handledRootAssetKeys,
        d.handledRootPartitionsByAssetKey, d.evaluationId,
        d.lastObserveRequestTimestampByAssetKey)
  let latestStorageId := fields.1
  let serializedHandledRootAssetKeys := fields.2.1
  let serializedHandledRootPartitionsByAssetKey := fields.2.2.1
  let evaluationId := fields.2.2.2.1
  let serializedLastObserveRequestTimestampByAssetKey := fields.2.2.2.2
  let handledRootPartitionsByAssetKey :=
    serializedHandledRootPartitionsByAssetKey.filterMap
      (deserializeHandledEntry assetGraph)
  { latestStorageId := latestStorageId
    handledRootAssetKeys :=
      canonicalStringSet
        (serializedHandledRootAssetKeys.map AssetKey.fromUserString)
    handledRootPartitionsByAssetKey := handledRootPartitionsByAssetKey
    evaluationId := evaluationId
    lastObserveRequestTimestampByAssetKey :=
      serializedLastObserveRequestTimestampByAssetKey.map
        (fun p => (AssetKey.fromUserString p.1, p.2)) }

/-- Embedding of `AssetReconciliationCursor.serialize` (canonical encoding:
sets are emitted sorted without duplicates, dicts sorted by key). -/
def AssetReconciliationCursor.serialize (c : AssetReconciliationCursor) :
    SerializedCursorObjectData :=
  { latestStorageId := c.latestStorageId
    handledRootAssetKeys :=
      canonicalStringSet (c.handledRootAssetKeys.map AssetKey.toUserString)
    handledRootPartitionsByAssetKey :=
      canonicalAssoc
        (c.handledRootPartitionsByAssetKey.map
          (fun p => (AssetKey.toUserString p.1, serializeSubset p.2)))
    evaluationId := c.evaluationId
    lastObserveRequestTimestampByAssetKey :=
      canonicalAssoc
        (c.lastObserveRequestTimestampByAssetKey.map
          (fun p => (AssetKey.toUserString p.1, p.2))) }

/-- Mutable evaluation state threaded by
`determine_asset_partitions_to_auto_materialize`: the recorded conditions per
asset partition and the per-asset materialization requests accumulated so far
within the tick. -/
structure ReconciliationState where
  conditionsByAssetPartition :
    List (AssetKeyPartitionKey × List AutoMaterializeCondition)
  materializationRequestsByAssetKey :
    List (AssetKey × List AssetKeyPartitionKey)
  deriving DecidableEq, Repr

/-- Embedding of the inner function `can_reconcile_candidate`: the eligibility
filter (must have a policy, be in the target set, not be covered by an active
backfill, and have no required-but-nonexistent parent partitions). -/
def canReconcileCandidate (g : AssetGraph) (q : InstanceQueryer)
    (targetAssetKeys : List AssetKey) (candidate : AssetKeyPartitionKey) :
    Bool :=
  let autoMaterializePolicy :=
    getImplicitAutoMaterializePolicy g candidate.assetKey
  !(autoMaterializePolicy.isNone
    || decide (candidate.assetKey ∉ targetAssetKeys)
    || decide (candidate ∈ q.activeBackfillTargets)
    || decide
        ((g.getParentsPartitions candidate).requiredButNonexistentParentsPartitions.length
          > 0))

/-- Embedding of the inner function `get_waiting_on_asset_keys`: ancestor
keys that will not be materialized this tick alongside the candidate. -/
def getWaitingOnAssetKeys (g : AssetGraph) (q : InstanceQueryer) (fuel : Nat)
    (conditionsByAssetPartition :
      List (AssetKeyPartitionKey × List AutoMaterializeCondition))
    (candidate : AssetKeyPartitionKey) : List AssetKey :=
  (g.getParentsPartitions candidate).parentPartitions.foldl
    (fun unreconciledAncestors parent =>
      let parentWillBeMaterializedAlongside :=
        willMaterializeForConditions
            (lookupD conditionsByAssetPartition parent [])
          && g.haveSamePartitioning parent.assetKey candidate.assetKey
          && parent.partitionKey == candidate.partitionKey
          && (!g.isExternal
              || g.getRepositoryHandle candidate.assetKey
                  == g.getRepositoryHandle parent.assetKey)
      if parentWillBeMaterializedAlongside then unreconciledAncestors
      else
        unionL unreconciledAncestors
          (getRootUnreconciledAncestors g q fuel parent))
    []

/-- Embedding of the inner function `conditions_for_candidate`.  The
`check.not_none` on the implicit policy is modelled by the `none` match arm,
which is unreachable because `getImplicitAutoMaterializePolicy` never returns
`none`. -/
def conditionsForCandidate (g : AssetGraph) (q : InstanceQueryer)
    (fuel : Nat) (state : ReconciliationState)
    (candidate : AssetKeyPartitionKey) : List AutoMaterializeCondition :=
  match getImplicitAutoMaterializePolicy g candidate.assetKey with
  | none => []
  | some autoMaterializePolicy =>
    let conditions : List AutoMaterializeCondition := []
    -- if this asset is missing
    let conditions :=
      if autoMaterializePolicy.onMissing
          && !q.assetPartitionHasMaterializationOrObservation candidate none then
        insertL .missing conditions
      else conditions
    -- if the parent has been updated
    let conditions :=
      if autoMaterializePolicy.onNewParentData
          && !isReconciled g q fuel candidate then
        insertL .parentMaterialized conditions
      else conditions
    -- if the parents will not be resolved this tick
    let waitingOnAssetKeys :=
      getWaitingOnAssetKeys g q fuel state.conditionsByAssetPartition candidate
    let conditions :=
      if !waitingOnAssetKeys.isEmpty then
        insertL (.parentOutdated waitingOnAssetKeys) conditions
      else conditions
    -- per-asset rate limit against the requests accumulated so far
    let conditions :=
      if willMaterializeForConditions conditions
          && autoMaterializePolicy.maxMaterializationsPerMinute.isSome
          && decide
              ((unionL
                  (lookupD state.materializationRequestsByAssetKey
                    candidate.assetKey [])
                  [candidate]).length
                > autoMaterializePolicy.maxMaterializationsPerMinute.getD 0) then
        insertL .maxMaterializationsExceeded conditions
      else conditions
    conditions

/-- The per-member state update of `should_reconcile`: record the unit's
conditions against the member and, when the unit will materialize, add the
member to the per-asset materialization requests. -/
def recordUnitConditions (unitConditions : List AutoMaterializeCondition)
    (willMaterialize : Bool) (s : ReconciliationState)
    (candidate : AssetKeyPartitionKey) : ReconciliationState :=
  { conditionsByAssetPartition :=
      updateMapWith s.conditionsByAssetPartition candidate []
        (fun old => unionL old unitConditions)
    materializationRequestsByAssetKey :=
      if willMaterialize then
        updateMapWith s.materializationRequestsByAssetKey
          candidate.assetKey [] (fun l => insertL candidate l)
      else s.materializationRequestsByAssetKey }

/-- Embedding of the inner function `should_reconcile`: reject the unit when
any member fails the eligibility filter (recording nothing), else record the
union of the members' conditions against every member and, if the unit will
materialize, add each member to the per-asset materialization requests. -/
def shouldReconcile (g : AssetGraph) (q : InstanceQueryer)
    (targetAssetKeys : List AssetKey) (fuel : Nat)
    (state : ReconciliationState)
    (candidatesUnit : List AssetKeyPartitionKey) :
    Bool × ReconciliationState :=
  if candidatesUnit.any
      (fun candidate => !canReconcileCandidate g q targetAssetKeys candidate) then
    (false, state)
  else
    let unitConditions :=
      candidatesUnit.foldl
        (fun acc candidate =>
          unionL acc (conditionsForCandidate g q fuel state candidate))
        []
    let willMaterialize := willMaterializeForConditions unitConditions
    (willMaterialize,
      candidatesUnit.foldl (recordUnitConditions unitConditions willMaterialize)
        state)

/-- Modelled from the spec (section 4.4): the breadth-first traversal
`asset_graph.bfs_filter_asset_partitions` lives in the asset-graph module,
which is not part of src.  Units are processed in frontier order through the
condition function; only when a unit passes are its members' children
enqueued as new frontier candidates.  The queue length is bounded by a fuel
parameter (traversal of the externally finite acyclic graph terminates). -/
def bfsFilterAssetPartitions (g : AssetGraph) (q : InstanceQueryer)
    (targetAssetKeys : List AssetKey) (conditionFuel : Nat) :
    Nat → List (List AssetKeyPartitionKey) → ReconciliationState →
      ReconciliationState
  | _, [], state => state
  | 0, _ :: _, state => state
  | bfsFuel + 1, candidatesUnit :: rest, state =>
    let step := shouldReconcile g q targetAssetKeys conditionFuel state candidatesUnit
    let frontier :=
      if step.1 then
        rest ++ candidatesUnit.foldl (fun acc c => acc ++ g.childUnits c) []
      else rest
    bfsFilterAssetPartitions g q targetAssetKeys conditionFuel bfsFuel
      frontier step.2

/-- Embedding of `find_never_handled_root_asset_partitions`. -/
def findNeverHandledRootAssetPartitions (g : AssetGraph) (q : InstanceQueryer)
    (cursor : AssetReconciliationCursor) (targetAssetKeys : List AssetKey) :
    List AssetKeyPartitionKey × List AssetKey × List (AssetKey × List String) :=
  (targetAssetKeys.filter (fun k => k ∈ g.rootAssetKeys)).foldl
    (fun (acc :
        List AssetKeyPartitionKey × List AssetKey ×
          List (AssetKey × List String)) assetKey =>
      if g.isPartitioned assetKey then
        (cursor.getUnhandledPartitions assetKey g).foldl
          (fun acc partitionKey =>
            let assetPartition : AssetKeyPartitionKey :=
              ⟨assetKey, some partitionKey⟩
            if q.assetPartitionHasMaterializationOrObservation
                assetPartition none then
              (acc.1, acc.2.1,
                updateMapWith acc.2.2 assetKey [] (insertL partitionKey))
            else
              (insertL assetPartition acc.1, acc.2.1, acc.2.2))
          acc
      else
        if !cursor.wasPreviouslyHandled assetKey then
          let assetPartition : AssetKeyPartitionKey := ⟨assetKey, none⟩
          if q.assetPartitionHasMaterializationOrObservation
              assetPartition none then
            (acc.1, insertL assetKey acc.2.1, acc.2.2)
          else
            (insertL assetPartition acc.1, acc.2.1, acc.2.2)
        else acc)
    ([], [], [])

/-- Embedding of `find_parent_materialized_asset_partitions`.  The two
`check.not_none` calls on latest records are modelled by `none` match arms
that skip (unreachable when updates after the cursor exist). -/
def findParentMaterializedAssetPartitions (g : AssetGraph)
    (q : InstanceQueryer) (latestStorageId : Option Nat)
    (targetAssetKeys targetAssetKeysAndParents : List AssetKey)
    (canReconcileFn : AssetKeyPartitionKey → Bool)
    (mapOldTimePartitions : Bool) :
    List AssetKeyPartitionKey × Option Nat :=
  targetAssetKeysAndParents.foldl
    (fun (acc : List AssetKeyPartitionKey × Option Nat) assetKey =>
      if g.isSource assetKey && !g.isObservable assetKey then acc
      else
        let newAssetPartitions :=
          getAssetPartitionsUpdatedAfterCursor g q assetKey none latestStorageId
        if newAssetPartitions.isEmpty then acc
        else
          let resultAssetPartitions :=
            match g.getPartitionsDef assetKey with
            | none =>
              match q.latestRecordRunId ⟨assetKey, none⟩ none with
              | none => acc.1
              | some latestRecordRunId =>
                (g.getChildrenPartitionsOfUnpartitioned assetKey).foldl
                  (fun r child =>
                    let childPartitionsDef := g.getPartitionsDef child.assetKey
                    if decide (child.assetKey ∈ targetAssetKeys)
                        -- when mapping from unpartitioned to time partitioned,
                        -- optionally ignore historical time partitions
                        && (mapOldTimePartitions
                            || (match childPartitionsDef with
                                | none => true
                                | some cpd =>
                                  !cpd.isTimeWindow
                                    || child.partitionKey == cpd.lastPartitionKey))
                        && !q.isAssetPlannedForRun latestRecordRunId child.assetKey then
                      insertL child r
                    else r)
                  acc.1
            | some partitionsDef =>
              let partitionsSubset :=
                newAssetPartitions.filterMap
                  (fun ap =>
                    match ap.partitionKey with
                    | some pk =>
                      if partitionsDef.partitionKeys.contains pk then some pk
                      else none
                    | none => none)
              (g.getChildren assetKey).foldl
                (fun r child =>
                  if decide (child ∉ targetAssetKeys) then r
                  else
                    match g.getPartitionsDef child with
                    | none => insertL ⟨child, none⟩ r
                    | some childPartitionsDef =>
                      let childPartitionsSubset :=
                        g.getDownstreamPartitions assetKey child partitionsSubset
                      childPartitionsSubset.foldl
                        (fun r childPartition =>
                          let childAssetPartition : AssetKeyPartitionKey :=
                            ⟨child, some childPartition⟩
                          if !canReconcileFn childAssetPartition then r
                          else if childPartitionsDef.defId != partitionsDef.defId
                              || !partitionsSubset.contains childPartition
                              || !(q.getFailedOrInProgressSubset child).contains
                                    childPartition then
                            insertL childAssetPartition r
                          else
                            match
                              q.latestRecordRunId ⟨assetKey, some childPartition⟩
                                latestStorageId with
                            | none => r
                            | some latestPartitionRecordRunId =>
                              if !q.isAssetPlannedForRun
                                  latestPartitionRecordRunId child then
                                insertL childAssetPartition r
                              else r)
                        r)
                acc.1
          let assetLatestStorageId :=
            q.getLatestMaterializationOrObservationStorageId ⟨assetKey, none⟩
          let resultLatestStorageId :=
            match acc.2 with
            | none => assetLatestStorageId
            | some current =>
              if assetLatestStorageId.getD 0 > current then assetLatestStorageId
              else acc.2
          (resultAssetPartitions, resultLatestStorageId))
    ([], latestStorageId)

/-- Embedding of `determine_asset_partitions_to_auto_materialize`; the
freshness-derived conditions are an input, as in the source signature. -/
def determineAssetPartitionsToAutoMaterialize (g : AssetGraph)
    (q : InstanceQueryer) (cursor : AssetReconciliationCursor)
    (targetAssetKeys targetAssetKeysAndParents : List AssetKey)
    (conditionsByAssetPartitionForFreshness :
      List (AssetKeyPartitionKey × List AutoMaterializeCondition))
    (fuel bfsFuel : Nat) :
    List (AssetKeyPartitionKey × List AutoMaterializeCondition) ×
      List AssetKey × List (AssetKey × List String) × Option Nat :=
  let neverHandled := findNeverHandledRootAssetPartitions g q cursor targetAssetKeys
  let neverHandledRoots := neverHandled.1
  let newlyMaterializedRootAssetKeys := neverHandled.2.1
  let newlyMaterializedRootPartitionsByAssetKey := neverHandled.2.2
  let stale :=
    findParentMaterializedAssetPartitions g q cursor.latestStorageId
      targetAssetKeys targetAssetKeysAndParents
      (canReconcileCandidate g q targetAssetKeys) false
  let staleCandidates := stale.1
  let latestStorageId := stale.2
  let initialState : ReconciliationState :=
    ⟨conditionsByAssetPartitionForFreshness, []⟩
  let seeds := unionL neverHandledRoots staleCandidates
  let finalState :=
    bfsFilterAssetPartitions g q targetAssetKeys fuel bfsFuel
      (g.groupUnits seeds) initialState
  (finalState.conditionsByAssetPartition, newlyMaterializedRootAssetKeys,
    newlyMaterializedRootPartitionsByAssetKey, latestStorageId)

/-- Embedding of `RunRequest`: asset selection, optional partition key, and
run tags. -/
structure RunRequest where
  assetSelection : List AssetKey
  partitionKey : Option String
  tags : List (String × String)
  deriving DecidableEq, Repr

/-- The materialize set from which run requests are built in `reconcile`:
asset partitions whose recorded conditions decide Materialize. -/
def reconcileMaterializeSet
    (conditionsByAssetPartition :
      List (AssetKeyPartitionKey × List AutoMaterializeCondition)) :
    List AssetKeyPartitionKey :=
  (conditionsByAssetPartition.filter
      (fun p => willMaterializeForConditions p.2)).map Prod.fst

/-- Embedding of `build_run_requests`: group the asset partitions by
(partitions definition, partition key), compute tags (partition-scoped tags
only when a partition key is set; `check.failed` when a partition key comes
with no partitions definition), and emit one request per repository split of
each group. -/
abbrev RunRequestGroup :=
  (Option Nat × Option String) × (Option PartitionsDefinition × List AssetKey)

/-- The grouping step of `build_run_requests`: file an asset partition under
its (partitions definition, partition key) pair. -/
def buildRunRequestsGroupStep (g : AssetGraph) (acc : List RunRequestGroup)
    (ap : AssetKeyPartitionKey) : List RunRequestGroup :=
  let partitionsDef := g.getPartitionsDef ap.assetKey
  let key := (partitionsDef.map (·.defId), ap.partitionKey)
  match lookupL acc key with
  | some _ =>
    acc.map
      (fun e =>
        if e.1 = key then (e.1, (e.2.1, insertL ap.assetKey e.2.2)) else e)
  | none => acc ++ [(key, (partitionsDef, [ap.assetKey]))]

/-- The emission step of `build_run_requests`: compute the tags of a group
(`check.failed` when a partition key comes with no partitions definition) and
append one request per repository split. -/
def buildRunRequestsEmitStep (g : AssetGraph)
    (runTags : Option (List (String × String)))
    (runRequests : List RunRequest) (entry : RunRequestGroup) :
    Except String (List RunRequest) :=
  let partitionKey := entry.1.2
  let partitionsDef := entry.2.1
  let assetKeys := entry.2.2
  let tags := runTags.getD []
  match partitionKey with
  | some pk =>
    match partitionsDef with
    | none => .error "Partition key provided for unpartitioned asset"
    | some pd =>
      let tags := tags ++ pd.getTagsForPartitionKey pk
      .ok
        (runRequests ++
          (g.splitAssetKeysByRepository assetKeys).map
            (fun assetKeysInRepo => ⟨assetKeysInRepo, partitionKey, tags⟩))
  | none =>
    .ok
      (runRequests ++
        (g.splitAssetKeysByRepository assetKeys).map
          (fun assetKeysInRepo => ⟨assetKeysInRepo, partitionKey, tags⟩))

def buildRunRequests (g : AssetGraph)
    (assetPartitions : List AssetKeyPartitionKey)
    (runTags : Option (List (String × String))) :
    Except String (List RunRequest) :=
  let assetsToReconcileByPartitionsDefPartitionKey :=
    assetPartitions.foldl (buildRunRequestsGroupStep g) []
  assetsToReconcileByPartitionsDefPartitionKey.foldlM
    (buildRunRequestsEmitStep g runTags) []

/-- Embedding of `get_auto_observe_run_requests`. -/
def getAutoObserveRunRequests (g : AssetGraph)
    (lastObserveRequestTimestampByAssetKey : List (AssetKey × Nat))
    (currentTimestamp : Nat) (runTags : Option (List (String × String))) :
    List RunRequest :=
  let assetsToAutoObserve :=
    (g.allAssetKeys.filter g.isSource).foldl
      (fun acc assetKey =>
        let lastObserveRequestTimestamp :=
          lookupL lastObserveRequestTimestampByAssetKey assetKey
        let autoObserveIntervalMinutes := g.getAutoObserveIntervalMinutes assetKey
        if truthyOptNat autoObserveIntervalMinutes
            && (lastObserveRequestTimestamp.isNone
                || decide
                    (lastObserveRequestTimestamp.getD 0 +
                        autoObserveIntervalMinutes.getD 0 * 60
                      < currentTimestamp)) then
          insertL assetKey acc
        else acc)
      []
  ((g.splitAssetKeysByRepository assetsToAutoObserve).filter
      (fun assetKeys => !assetKeys.isEmpty)).map
    (fun assetKeys => ⟨assetKeys, none, runTags.getD []⟩)

/-- Embedding of `reconcile`.  The freshness-derived conditions are an input
(their computation lives in the missing module
`freshness_based_auto_materialize`; the spec treats freshness policies as an
external input to condition evaluation), and the per-asset evaluation records
are omitted (spec: observability only, not consumed by the algorithm). -/
def reconcile (g : AssetGraph) (targetAssetKeys : List AssetKey)
    (q : InstanceQueryer) (cursor : AssetReconciliationCursor)
    (materializeRunTags observeRunTags : Option (List (String × String)))
    (autoObserve : Bool)
    (conditionsByAssetPartitionForFreshness :
      List (AssetKeyPartitionKey × List AutoMaterializeCondition))
    (observeRequestTimestamp : Nat) (fuel bfsFuel : Nat) :
    Except String (List RunRequest × AssetReconciliationCursor) :=
  let targetParentAssetKeys :=
    targetAssetKeys.foldl (fun acc k => unionL acc (g.getParents k)) []
  let targetAssetKeysAndParents := unionL targetAssetKeys targetParentAssetKeys
  let determined :=
    determineAssetPartitionsToAutoMaterialize g q cursor targetAssetKeys
      targetAssetKeysAndParents conditionsByAssetPartitionForFreshness fuel
      bfsFuel
  let conditionsByAssetPartition := determined.1
  let newlyMaterializedRootAssetKeys := determined.2.1
  let newlyMaterializedRootPartitionsByAssetKey := determined.2.2.1
  let latestStorageId := determined.2.2.2
  let autoObserveRunRequests :=
    if autoObserve then
      getAutoObserveRunRequests g cursor.lastObserveRequestTimestampByAssetKey
        observeRequestTimestamp observeRunTags
    else []
  match buildRunRequests g
      (reconcileMaterializeSet conditionsByAssetPartition)
      materializeRunTags with
  | .error e => .error e
  | .ok materializeRunRequests =>
    let runRequests := materializeRunRequests ++ autoObserveRunRequests
    let newlyObserveRequestedAssetKeys :=
      autoObserveRunRequests.foldl (fun acc rr => acc ++ rr.assetSelection) []
    match cursor.withUpdates latestStorageId conditionsByAssetPartition
        newlyMaterializedRootAssetKeys newlyMaterializedRootPartitionsByAssetKey
        (cursor.evaluationId + 1) g newlyObserveRequestedAssetKeys
        observeRequestTimestamp with
    | .error e => .error e
    | .ok updatedCursor => .ok (runRequests, updatedCursor)

/-! Concrete fixtures used by witnesses and counterexamples. -/

/-- A one-asset graph: a single policy-less unpartitioned root asset "r". -/
def gPolicyless : AssetGraph :=
  { allAssetKeys := ["r"]
    isSource := fun _ => false
    isObservable := fun _ => false
    getPartitionsDef := fun _ => none
    getAutoMaterializePolicy := fun _ => none
    hasDownstreamFreshnessPolicies := fun _ => false
    getParents := fun _ => []
    getChildren := fun _ => []
    getParentsPartitions := fun _ => ⟨[], []⟩
    getChildrenPartitionsOfUnpartitioned := fun _ => []
    getDownstreamPartitions := fun _ _ _ => []
    haveSamePartitioning := fun _ _ => true
    isExternal := false
    getRepositoryHandle := fun _ => 0
    childUnits := fun _ => []
    groupUnits := fun aps => aps.map (fun ap => [ap])
    getAutoObserveIntervalMinutes := fun _ => none }

/-- A store with no materializations, observations, backfills or runs. -/
def qEmptyStore : InstanceQueryer :=
  { latestStorageIdsByAssetPartition := fun _ => []
    dataVersionsAfter := fun _ _ _ => []
    dataVersionsBefore := fun _ _ _ => []
    activeBackfillTargets := []
    getFailedOrInProgressSubset := fun _ => []
    latestRecordRunId := fun _ _ => none
    isAssetPlannedForRun := fun _ _ => false }

/-! Helper lemmas. -/

/-- In an association list with nodup keys, a key determines its payload. -/
theorem eq_of_mem_of_nodupKeys {α β : Type} [DecidableEq α]
    {l : List (α × β)} (h : (l.map Prod.fst).Nodup) {a : α} {b₁ b₂ : β}
    (h₁ : (a, b₁) ∈ l) (h₂ : (a, b₂) ∈ l) : b₁ = b₂ := by
  induction l with
  | nil => cases h₁
  | cons p t ih =>
    rw [List.map_cons, List.nodup_cons] at h
    rcases List.mem_cons.mp h₁ with h₁ | h₁ <;>
      rcases List.mem_cons.mp h₂ with h₂ | h₂
    · exact congrArg Prod.snd (h₁.trans h₂.symm)
    · exfalso; apply h.1; rw [← h₁]
      exact List.mem_map.mpr ⟨(a, b₂), h₂, rfl⟩
    · exfalso; apply h.1; rw [← h₂]
      exact List.mem_map.mpr ⟨(a, b₁), h₁, rfl⟩
    · exact ih h.2 h₁ h₂

theorem mem_insertL {α : Type} [DecidableEq α] {x a : α} {l : List α} :
    x ∈ insertL a l ↔ x = a ∨ x ∈ l := by
  by_cases hmem : a ∈ l
  · simp only [insertL, hmem, if_true]
    constructor
    · exact fun h => Or.inr h
    · rintro (rfl | h)
      · exact hmem
      · exact h
  · simp only [insertL, hmem, if_false]
    simp [List.mem_append, or_comm]

theorem mem_unionL {α : Type} [DecidableEq α] {x : α} :
    ∀ (l₂ l₁ : List α), x ∈ unionL l₁ l₂ ↔ x ∈ l₁ ∨ x ∈ l₂
  | [], l₁ => by simp [unionL]
  | a :: t, l₁ => by
    have hstep : unionL l₁ (a :: t) = unionL (insertL a l₁) t := rfl
    rw [hstep, mem_unionL t (insertL a l₁), mem_insertL]
    constructor
    · rintro ((rfl | h) | h)
      · exact Or.inr (List.mem_cons_self _ _)
      · exact Or.inl h
      · exact Or.inr (List.mem_cons_of_mem a h)
    · rintro (h | h)
      · exact Or.inl (Or.inr h)
      · rcases List.mem_cons.mp h with rfl | h
        · exact Or.inl (Or.inl rfl)
        · exact Or.inr h

/-- A candidate passing the eligibility filter is in the target set. -/
theorem canReconcileCandidate_mem_targets {g : AssetGraph}
    {q : InstanceQueryer} {targetAssetKeys : List AssetKey}
    {candidate : AssetKeyPartitionKey}
    (h : canReconcileCandidate g q targetAssetKeys candidate = true) :
    candidate.assetKey ∈ targetAssetKeys := by
  by_contra hc
  simp [canReconcileCandidate, hc] at h

/-- Every entry of an updated map has the updated key or an existing key. -/
theorem mem_updateMapWith_keys {α β : Type} [DecidableEq α]
    {m : List (α × β)} {x : α} {d : β} {f : β → β} {p : α × β}
    (h : p ∈ updateMapWith m x d f) :
    p.1 = x ∨ p.1 ∈ m.map Prod.fst := by
  unfold updateMapWith at h
  cases hl : lookupL m x with
  | none =>
    rw [hl] at h
    rcases List.mem_append.mp h with h | h
    · exact Or.inr (List.mem_map_of_mem Prod.fst h)
    · rcases List.mem_singleton.mp h with rfl
      exact Or.inl rfl
  | some b =>
    rw [hl] at h
    rcases List.mem_map.mp h with ⟨e, he, heq⟩
    by_cases hk : e.1 = x
    · rw [if_pos hk] at heq
      rw [← heq]
      exact Or.inl hk
    · rw [if_neg hk] at heq
      rw [← heq]
      exact Or.inr (List.mem_map_of_mem Prod.fst he)

/-- Recording unit conditions only adds condition keys from the unit. -/
theorem recordUnitConditions_conditions_keys
    (P : AssetKeyPartitionKey → Prop)
    (unitConditions : List AutoMaterializeCondition) (willMaterialize : Bool) :
    ∀ (candidatesUnit : List AssetKeyPartitionKey) (s : ReconciliationState),
      (∀ p ∈ s.conditionsByAssetPartition, P p.1) →
      (∀ c ∈ candidatesUnit, P c) →
      ∀ p ∈ (candidatesUnit.foldl
          (recordUnitConditions unitConditions willMaterialize)
          s).conditionsByAssetPartition, P p.1 := by
  intro candidatesUnit
  induction candidatesUnit with
  | nil => intro s hs _ p hp; exact hs p hp
  | cons c t ih =>
    intro s hs hc p hp
    rw [List.foldl_cons] at hp
    refine ih _ ?_ (fun c' hc' => hc c' (List.mem_cons_of_mem c hc')) p hp
    intro p' hp'
    simp only [recordUnitConditions] at hp'
    rcases mem_updateMapWith_keys hp' with h | h
    · rw [h]; exact hc c (List.mem_cons_self c t)
    · rcases List.mem_map.mp h with ⟨p₀, hp₀, hfst⟩
      rw [← hfst]
      exact hs p₀ hp₀

/-- `should_reconcile` only records conditions for target-set members. -/
theorem shouldReconcile_conditions_keys {g : AssetGraph}
    {q : InstanceQueryer} {targetAssetKeys : List AssetKey} {fuel : Nat}
    {state : ReconciliationState}
    {candidatesUnit : List AssetKeyPartitionKey}
    (hs : ∀ p ∈ state.conditionsByAssetPartition,
      p.1.assetKey ∈ targetAssetKeys) :
    ∀ p ∈ (shouldReconcile g q targetAssetKeys fuel state
        candidatesUnit).2.conditionsByAssetPartition,
      p.1.assetKey ∈ targetAssetKeys := by
  unfold shouldReconcile
  by_cases hany : candidatesUnit.any
      (fun candidate => !canReconcileCandidate g q targetAssetKeys candidate)
      = true
  · simp only [hany, if_true]
    exact hs
  · simp only [hany, if_false, Bool.false_eq_true]
    refine recordUnitConditions_conditions_keys
      (fun ap => ap.assetKey ∈ targetAssetKeys) _ _ _ _ hs ?_
    intro c hc
    have htrue : canReconcileCandidate g q targetAssetKeys c = true := by
      cases hcr : canReconcileCandidate g q targetAssetKeys c with
      | false =>
        exact absurd (List.any_eq_true.mpr ⟨c, hc, by rw [hcr]; rfl⟩) hany
      | true => rfl
    exact canReconcileCandidate_mem_targets htrue

/-- The breadth-first traversal only records conditions for target-set
members. -/
theorem bfs_conditions_keys {g : AssetGraph} {q : InstanceQueryer}
    {targetAssetKeys : List AssetKey} {conditionFuel : Nat} :
    ∀ (bfsFuel : Nat) (frontier : List (List AssetKeyPartitionKey))
      (state : ReconciliationState),
      (∀ p ∈ state.conditionsByAssetPartition,
        p.1.assetKey ∈ targetAssetKeys) →
      ∀ p ∈ (bfsFilterAssetPartitions g q targetAssetKeys conditionFuel
          bfsFuel frontier state).conditionsByAssetPartition,
        p.1.assetKey ∈ targetAssetKeys := by
  intro bfsFuel
  induction bfsFuel with
  | zero =>
    intro frontier state hs
    cases frontier with
    | nil => exact hs
    | cons u rest => exact hs
  | succ n ih =>
    intro frontier state hs
    cases frontier with
    | nil => exact hs
    | cons u rest =>
      simp only [bfsFilterAssetPartitions]
      exact ih _ _ (shouldReconcile_conditions_keys hs)

/-- All conditions recorded by
`determine_asset_partitions_to_auto_materialize` concern target-set members,
provided the freshness-derived seed conditions do. -/
theorem determine_conditions_keys {g : AssetGraph} {q : InstanceQueryer}
    {cursor : AssetReconciliationCursor}
    {targetAssetKeys targetAssetKeysAndParents : List AssetKey}
    {conditionsByAssetPartitionForFreshness :
      List (AssetKeyPartitionKey × List AutoMaterializeCondition)}
    {fuel bfsFuel : Nat}
    (hfresh : ∀ p ∈ conditionsByAssetPartitionForFreshness,
      p.1.assetKey ∈ targetAssetKeys) :
    ∀ p ∈ (determineAssetPartitionsToAutoMaterialize g q cursor
        targetAssetKeys targetAssetKeysAndParents
        conditionsByAssetPartitionForFreshness fuel bfsFuel).1,
      p.1.assetKey ∈ targetAssetKeys := by
  unfold determineAssetPartitionsToAutoMaterialize
  exact bfs_conditions_keys bfsFuel _ _ hfresh

/-- Members of the materialize set come from the conditions map. -/
theorem mem_reconcileMaterializeSet
    {condMap : List (AssetKeyPartitionKey × List AutoMaterializeCondition)}
    {ap : AssetKeyPartitionKey} (h : ap ∈ reconcileMaterializeSet condMap) :
    ∃ p ∈ condMap, p.1 = ap := by
  rcases List.mem_map.mp h with ⟨p, hp, hfst⟩
  exact ⟨p, (List.mem_filter.mp hp).1, hfst⟩

/-- A repository split only contains keys of its input. -/
theorem splitAssetKeysByRepository_subset {g : AssetGraph}
    {assetKeys : List AssetKey} {ks : List AssetKey}
    (h : ks ∈ g.splitAssetKeysByRepository assetKeys) :
    ∀ k ∈ ks, k ∈ assetKeys := by
  rcases List.mem_map.mp h with ⟨hrepo, _, heq⟩
  intro k hk
  rw [← heq] at hk
  exact List.mem_of_mem_filter hk

/-- Keys collected by the grouping fold of `build_run_requests` come from the
input asset partitions (or the initial accumulator). -/
theorem groupStep_keys (g : AssetGraph) (Q : AssetKey → Prop) :
    ∀ (assetPartitions : List AssetKeyPartitionKey)
      (acc : List RunRequestGroup),
      (∀ e ∈ acc, ∀ k ∈ e.2.2, Q k) →
      (∀ ap ∈ assetPartitions, Q ap.assetKey) →
      ∀ e ∈ assetPartitions.foldl (buildRunRequestsGroupStep g) acc,
        ∀ k ∈ e.2.2, Q k := by
  intro assetPartitions
  induction assetPartitions with
  | nil => intro acc hacc _ e he; exact hacc e he
  | cons ap t ih =>
    intro acc hacc haps e he
    rw [List.foldl_cons] at he
    refine ih _ ?_ (fun ap' h => haps ap' (List.mem_cons_of_mem ap h)) e he
    intro e' he' k hk
    have hQ : Q ap.assetKey := haps ap (List.mem_cons_self ap t)
    simp only [buildRunRequestsGroupStep] at he'
    cases hl : lookupL acc
        (Option.map (fun x => x.defId) (g.getPartitionsDef ap.assetKey),
          ap.partitionKey) with
    | none =>
      rw [hl] at he'
      rcases List.mem_append.mp he' with he' | he'
      · exact hacc e' he' k hk
      · rcases List.mem_singleton.mp he' with rfl
        rcases List.mem_singleton.mp hk with rfl
        exact hQ
    | some b =>
      rw [hl] at he'
      rcases List.mem_map.mp he' with ⟨e₀, he₀, heq⟩
      by_cases hkey : e₀.1 =
          (Option.map (fun x => x.defId) (g.getPartitionsDef ap.assetKey),
            ap.partitionKey)
      · rw [if_pos hkey] at heq
        rw [← heq] at hk
        rcases mem_insertL.mp hk with rfl | hk
        · exact hQ
        · exact hacc e₀ he₀ k hk
      · rw [if_neg hkey] at heq
        rw [← heq] at hk
        exact hacc e₀ he₀ k hk

/-- Selections emitted by the emission fold of `build_run_requests` only hold
keys of the processed groups (or of the initial accumulator). -/
theorem emitFold_selection (g : AssetGraph)
    (runTags : Option (List (String × String))) (Q : AssetKey → Prop) :
    ∀ (groups : List RunRequestGroup) (acc rrs : List RunRequest),
      (∀ e ∈ groups, ∀ k ∈ e.2.2, Q k) →
      (∀ rr ∈ acc, ∀ k ∈ rr.assetSelection, Q k) →
      groups.foldlM (buildRunRequestsEmitStep g runTags) acc = .ok rrs →
      ∀ rr ∈ rrs, ∀ k ∈ rr.assetSelection, Q k := by
  intro groups
  induction groups with
  | nil =>
    intro acc rrs _ hacc hfold
    cases hfold
    exact hacc
  | cons e t ih =>
    intro acc rrs hgroups hacc hfold
    have hcons : List.foldlM (buildRunRequestsEmitStep g runTags) acc (e :: t)
        = (buildRunRequestsEmitStep g runTags acc e >>= fun acc' =>
            List.foldlM (buildRunRequestsEmitStep g runTags) acc' t) := rfl
    rw [hcons] at hfold
    cases hstep : buildRunRequestsEmitStep g runTags acc e with
    | error msg => rw [hstep] at hfold; cases hfold
    | ok acc' =>
      rw [hstep] at hfold
      have hfold2 : List.foldlM (buildRunRequestsEmitStep g runTags) acc' t
          = .ok rrs := hfold
      refine ih acc' rrs
        (fun e' he' => hgroups e' (List.mem_cons_of_mem e he')) ?_ hfold2
      intro rr hrr k hk
      have hselect : rr ∈ acc ∨
          ∀ k' ∈ rr.assetSelection, k' ∈ e.2.2 := by
        unfold buildRunRequestsEmitStep at hstep
        rcases e with ⟨⟨pdId, pk⟩, pd, assetKeys⟩
        cases pk with
        | none =>
          simp only at hstep
          cases hstep
          rcases List.mem_append.mp hrr with h | h
          · exact Or.inl h
          · rcases List.mem_map.mp h with ⟨ks, hks, heq⟩
            refine Or.inr ?_
            intro k' hk'
            rw [← heq] at hk'
            exact splitAssetKeysByRepository_subset hks k' hk'
        | some pkv =>
          cases pd with
          | none => cases hstep
          | some pdv =>
            simp only at hstep
            cases hstep
            rcases List.mem_append.mp hrr with h | h
            · exact Or.inl h
            · rcases List.mem_map.mp h with ⟨ks, hks, heq⟩
              refine Or.inr ?_
              intro k' hk'
              rw [← heq] at hk'
              exact splitAssetKeysByRepository_subset hks k' hk'
      rcases hselect with h | h
      · exact hacc rr h k hk
      · exact hgroups e (List.mem_cons_self e t) k (h k hk)

/-- Keys selected by any run request built by `build_run_requests` come from
the input asset partitions. -/
theorem buildRunRequests_selection {g : AssetGraph}
    {assetPartitions : List AssetKeyPartitionKey}
    {runTags : Option (List (String × String))} {rrs : List RunRequest}
    (h : buildRunRequests g assetPartitions runTags = .ok rrs) :
    ∀ rr ∈ rrs, ∀ k ∈ rr.assetSelection,
      ∃ ap ∈ assetPartitions, ap.assetKey = k := by
  unfold buildRunRequests at h
  refine emitFold_selection g runTags _ _ [] rrs ?_
    (by intro rr hrr; cases hrr) h
  refine groupStep_keys g _ assetPartitions [] (by intro e he; cases he) ?_
  intro ap hap
  exact ⟨ap, hap, rfl⟩

/-! Claim theorems. -/

/-- C1: for every condition set, the derived decision follows the fixed
precedence Skip then Discard then Materialize, with an empty set yielding no
decision; in particular an asset partition whose recorded condition set
contains both a Skip-deciding and a Materialize-deciding condition gets
decision Skip and is never a member of the materialize set from which run
requests are built. -/
theorem decisionPrecedence_and_materializeSet_exclusion
    (conditions : List AutoMaterializeCondition) :
    (decisionTypeForConditions conditions =
      if conditions.isEmpty then none
      else if AutoMaterializeDecisionType.skip ∈
          conditions.map (·.decisionType) then some .skip
      else if AutoMaterializeDecisionType.discard ∈
          conditions.map (·.decisionType) then some .discard
      else some .materialize)
    ∧ ∀ c₁ c₂, c₁ ∈ conditions → c₂ ∈ conditions →
        c₁.decisionType = .skip → c₂.decisionType = .materialize →
        decisionTypeForConditions conditions = some .skip ∧
        ∀ (condMap :
            List (AssetKeyPartitionKey × List AutoMaterializeCondition))
          (ap : AssetKeyPartitionKey),
          (condMap.map Prod.fst).Nodup →
          (ap, conditions) ∈ condMap →
          ap ∉ reconcileMaterializeSet condMap := by
  constructor
  · unfold decisionTypeForConditions
    by_cases he : conditions.isEmpty
    · simp [he]
    · simp only [he, if_false, Bool.false_eq_true]
      by_cases hs :
          AutoMaterializeDecisionType.skip ∈ conditions.map (·.decisionType)
      · simp [hs]
      · by_cases hd :
            AutoMaterializeDecisionType.discard ∈
              conditions.map (·.decisionType)
        · simp [hs, hd]
        · have hne : conditions ≠ [] := by
            intro hcon; rw [hcon] at he; simp at he
          obtain ⟨c, hc⟩ := List.exists_mem_of_ne_nil conditions hne
          have hmem : c.decisionType ∈ conditions.map (·.decisionType) :=
            List.mem_map_of_mem _ hc
          have hm :
              AutoMaterializeDecisionType.materialize ∈
                conditions.map (·.decisionType) := by
            cases hct : c.decisionType
            · rw [hct] at hmem; exact hmem
            · rw [hct] at hmem; exact absurd hmem hs
            · rw [hct] at hmem; exact absurd hmem hd
          simp [hs, hd, hm]
  · intro c₁ c₂ h₁ h₂ hskip hmat
    have hdec : decisionTypeForConditions conditions = some .skip := by
      have hne : ¬conditions.isEmpty := by
        cases conditions with
        | nil => cases h₁
        | cons a t => simp
      have hs :
          AutoMaterializeDecisionType.skip ∈
            conditions.map (·.decisionType) := by
        rw [← hskip]; exact List.mem_map_of_mem _ h₁
      unfold decisionTypeForConditions
      simp [hne, hs]
    refine ⟨hdec, ?_⟩
    intro condMap ap hnodup hmem hin
    unfold reconcileMaterializeSet at hin
    rw [List.mem_map] at hin
    obtain ⟨p, hp, hfst⟩ := hin
    rw [List.mem_filter] at hp
    obtain ⟨hpmem, hpwill⟩ := hp
    have hpeq : p = (ap, p.2) := by
      cases p; simp at hfst; simp [hfst]
    rw [hpeq] at hpmem
    have : p.2 = conditions := eq_of_mem_of_nodupKeys hnodup hpmem hmem
    rw [this] at hpwill
    rw [willMaterializeForConditions, hdec] at hpwill
    simp at hpwill

/-- C1 witness: a concrete condition set holding a Skip-deciding and a
Materialize-deciding condition decides Skip and its asset partition is
excluded from the materialize set. -/
theorem decisionPrecedence_witness :
    (⟨"x", none⟩ : AssetKeyPartitionKey) ∉
      reconcileMaterializeSet
        [(⟨"x", none⟩,
          [.parentOutdated ["u"], AutoMaterializeCondition.missing])] :=
  ((decisionPrecedence_and_materializeSet_exclusion
        [.parentOutdated ["u"], .missing]).2
      (.parentOutdated ["u"]) .missing (by decide) (by decide) (by decide)
      (by decide)).2
    [(⟨"x", none⟩, [.parentOutdated ["u"], .missing])] ⟨"x", none⟩
    (by decide) (by decide)

/-- C3 counterexample: `with_updates` on a cursor holding storage id 1 with a
new id of 0 does not raise even though the new id is strictly less than the
stored one, because the truthiness guard treats 0 like `None`; the old id is
kept. -/
theorem withUpdates_zeroRegression_noRaise :
    AssetReconciliationCursor.withUpdates ⟨some 1, [], [], 0, []⟩ (some 0)
        [] [] [] 1 gPolicyless [] 0
      = .ok ⟨some 1, [], [], 1, []⟩ ∧ (0 : Nat) < 1 := by decide

/-- C3 amended: `with_updates` raises the fatal invariant violation exactly
when both the new and stored ids are present and nonzero with new id strictly
below the stored one (and then no cursor is produced); otherwise it returns a
cursor whose `latestStorageId` is the new id when present and nonzero and the
stored id otherwise, which equals `max(old, new)` when absent ids are read as
0, so the id never decreases. -/
theorem withUpdates_latestStorageId_spec (c : AssetReconciliationCursor)
    (latestStorageId : Option Nat)
    (conditionsByAssetPartition :
      List (AssetKeyPartitionKey × List AutoMaterializeCondition))
    (newlyMaterializedRootAssetKeys : List AssetKey)
    (newlyMaterializedRootPartitionsByAssetKey : List (AssetKey × List String))
    (evaluationId : Nat) (g : AssetGraph)
    (newlyObserveRequestedAssetKeys : List AssetKey)
    (observeRequestTimestamp : Nat) :
    ((c.withUpdates latestStorageId conditionsByAssetPartition
          newlyMaterializedRootAssetKeys
          newlyMaterializedRootPartitionsByAssetKey evaluationId g
          newlyObserveRequestedAssetKeys observeRequestTimestamp).isOk = false
      ↔ (truthyOptNat latestStorageId = true ∧
          truthyOptNat c.latestStorageId = true ∧
          latestStorageId.getD 0 < c.latestStorageId.getD 0))
    ∧ ∀ c', c.withUpdates latestStorageId conditionsByAssetPartition
          newlyMaterializedRootAssetKeys
          newlyMaterializedRootPartitionsByAssetKey evaluationId g
          newlyObserveRequestedAssetKeys observeRequestTimestamp = .ok c' →
        c'.latestStorageId =
            (if truthyOptNat latestStorageId then latestStorageId
              else c.latestStorageId)
          ∧ c'.latestStorageId.getD 0 =
              max (c.latestStorageId.getD 0) (latestStorageId.getD 0)
          ∧ c.latestStorageId.getD 0 ≤ c'.latestStorageId.getD 0 := by
  by_cases hcond : truthyOptNat latestStorageId = true ∧
      truthyOptNat c.latestStorageId = true ∧
      latestStorageId.getD 0 < c.latestStorageId.getD 0
  · constructor
    · simp only [AssetReconciliationCursor.withUpdates]
      rw [if_pos hcond]
      exact iff_of_true rfl hcond
    · intro c' hc'
      rw [AssetReconciliationCursor.withUpdates] at hc'
      rw [if_pos hcond] at hc'
      cases hc'
  · constructor
    · simp only [AssetReconciliationCursor.withUpdates]
      rw [if_neg hcond]
      exact iff_of_false (fun hx => Bool.noConfusion hx) hcond
    · intro c' hc'
      rw [AssetReconciliationCursor.withUpdates] at hc'
      rw [if_neg hcond] at hc'
      have hfield : c'.latestStorageId =
          (if truthyOptNat latestStorageId then latestStorageId
            else c.latestStorageId) := by
        cases hc'; rfl
      refine ⟨hfield, ?_, ?_⟩
      · rw [hfield]
        cases hl : latestStorageId with
        | none => simp [truthyOptNat]
        | some n =>
          cases hcl : c.latestStorageId with
          | none =>
            by_cases hn : n = 0 <;> simp [truthyOptNat, hn]
          | some m =>
            by_cases hn : n = 0
            · simp [truthyOptNat, hn]
            · have hge : ¬ n < m ∨ m = 0 := by
                by_cases hm : m = 0
                · exact Or.inr hm
                · left
                  intro hlt
                  exact hcond ⟨by simp [hl, truthyOptNat, hn],
                    by simp [hcl, truthyOptNat, hm], by simp [hl, hcl]; omega⟩
              rcases hge with hge | hge
              · simp [truthyOptNat, hn, hge]
                omega
              · simp [truthyOptNat, hn, hge]
      · rw [hfield]
        cases hl : latestStorageId with
        | none => simp [truthyOptNat]
        | some n =>
          cases hcl : c.latestStorageId with
          | none => by_cases hn : n = 0 <;> simp [truthyOptNat, hn]
          | some m =>
            by_cases hn : n = 0
            · simp [truthyOptNat, hn]
            · by_cases hm : m = 0
              · simp [truthyOptNat, hn, hm]
              · have : ¬ n < m := by
                  intro hlt
                  exact hcond ⟨by simp [hl, truthyOptNat, hn],
                    by simp [hcl, truthyOptNat, hm], by simp [hl, hcl]; omega⟩
                simp [truthyOptNat, hn]; omega

/-- C3 amended witness: at old id 5 and new id 7 the update succeeds and the
resulting id is 7 = max(5, 7). -/
theorem withUpdates_latestStorageId_spec_witness :
    AssetReconciliationCursor.withUpdates ⟨some 5, [], [], 0, []⟩ (some 7)
        [] [] [] 1 gPolicyless [] 0 = .ok ⟨some 7, [], [], 1, []⟩ ∧
    (⟨some 7, [], [], 1, []⟩ : AssetReconciliationCursor).latestStorageId =
        (if truthyOptNat (some 7) then some 7 else some 5) ∧
    (some 7 : Option Nat).getD 0 = max ((some 5 : Option Nat).getD 0)
        ((some 7 : Option Nat).getD 0) ∧
    (some 5 : Option Nat).getD 0 ≤ (some 7 : Option Nat).getD 0 := by
  have h : AssetReconciliationCursor.withUpdates ⟨some 5, [], [], 0, []⟩
      (some 7) [] [] [] 1 gPolicyless [] 0 = .ok ⟨some 7, [], [], 1, []⟩ := by
    decide
  have hs := (withUpdates_latestStorageId_spec ⟨some 5, [], [], 0, []⟩ (some 7)
      [] [] [] 1 gPolicyless [] 0).2 ⟨some 7, [], [], 1, []⟩ h
  exact ⟨h, hs⟩

/-- C5: the base cases of the root-unreconciled-ancestors algorithm: a source
(non-materializable) asset partition yields the empty set unconditionally,
and otherwise an asset partition with no materialization or observation
record yields exactly the singleton of its own asset key. -/
theorem getRootUnreconciledAncestors_baseCases (g : AssetGraph)
    (q : InstanceQueryer) (fuel : Nat) (ap : AssetKeyPartitionKey) :
    (g.isSource ap.assetKey = true →
      getRootUnreconciledAncestors g q (fuel + 1) ap = [])
    ∧ (g.isSource ap.assetKey = false →
      q.assetPartitionHasMaterializationOrObservation ap none = false →
      getRootUnreconciledAncestors g q (fuel + 1) ap = [ap.assetKey]) := by
  constructor
  · intro h
    simp [getRootUnreconciledAncestors, h]
  · intro h hrec
    simp [getRootUnreconciledAncestors, h, hrec]

/-- C5 witness: on a concrete store with no records, a non-source asset
partition yields its own asset key, and a source yields the empty set. -/
theorem getRootUnreconciledAncestors_baseCases_witness :
    getRootUnreconciledAncestors gPolicyless qEmptyStore 1 ⟨"r", none⟩
      = ["r"] :=
  (getRootUnreconciledAncestors_baseCases gPolicyless qEmptyStore 0
      ⟨"r", none⟩).2 (by decide) (by decide)

/-- C8: when any member of a materialization unit fails the eligibility
filter, the whole unit is rejected: `should_reconcile` returns false with the
state (conditions and requests) unchanged, and the traversal continues with
the remaining frontier without enqueuing any children of the unit. -/
theorem rejectedUnit_recordsNothing_enqueuesNothing (g : AssetGraph)
    (q : InstanceQueryer) (targetAssetKeys : List AssetKey)
    (conditionFuel bfsFuel : Nat) (state : ReconciliationState)
    (rest : List (List AssetKeyPartitionKey))
    (candidatesUnit : List AssetKeyPartitionKey) (c : AssetKeyPartitionKey)
    (hmem : c ∈ candidatesUnit)
    (hfail : canReconcileCandidate g q targetAssetKeys c = false) :
    shouldReconcile g q targetAssetKeys conditionFuel state candidatesUnit
      = (false, state)
    ∧ bfsFilterAssetPartitions g q targetAssetKeys conditionFuel (bfsFuel + 1)
        (candidatesUnit :: rest) state
      = bfsFilterAssetPartitions g q targetAssetKeys conditionFuel bfsFuel
          rest state := by
  have hany : candidatesUnit.any
      (fun candidate => !canReconcileCandidate g q targetAssetKeys candidate)
      = true := by
    rw [List.any_eq_true]
    exact ⟨c, hmem, by simp [hfail]⟩
  have hsr : shouldReconcile g q targetAssetKeys conditionFuel state
      candidatesUnit = (false, state) := by
    simp [shouldReconcile, hany]
  refine ⟨hsr, ?_⟩
  simp [bfsFilterAssetPartitions, hsr]

/-- C8 witness: a unit containing a candidate outside the target set is
rejected, leaving the state untouched and enqueuing nothing. -/
theorem rejectedUnit_witness :
    shouldReconcile gPolicyless qEmptyStore [] 1 ⟨[], []⟩ [⟨"r", none⟩]
      = (false, ⟨[], []⟩)
    ∧ bfsFilterAssetPartitions gPolicyless qEmptyStore [] 1 1
        [[⟨"r", none⟩]] ⟨[], []⟩
      = bfsFilterAssetPartitions gPolicyless qEmptyStore [] 1 0 [] ⟨[], []⟩ :=
  rejectedUnit_recordsNothing_enqueuesNothing gPolicyless qEmptyStore [] 1 0
    ⟨[], []⟩ [] [⟨"r", none⟩] ⟨"r", none⟩ (by decide) (by decide)

/-- C9: every asset key has an effective (implicit) auto-materialize policy;
when no policy is declared the default has `on_missing = true` and a rate
limit of 24 for hourly time-partitioned assets, 1 for other time-partitioned
assets, and none for non-time-partitioned assets; consequently a candidate
rejected by the eligibility filter is rejected by one of the other branches,
never the no-policy branch. -/
theorem implicitPolicy_default_and_noPolicyBranchNeverRejects (g : AssetGraph)
    (k : AssetKey) :
    (getImplicitAutoMaterializePolicy g k).isSome = true
    ∧ (g.getAutoMaterializePolicy k = none →
        getImplicitAutoMaterializePolicy g k = some
          { onMissing := true
            onNewParentData := !g.hasDownstreamFreshnessPolicies k
            forFreshness := true
            maxMaterializationsPerMinute :=
              match getTimePartitionsDef (g.getPartitionsDef k) with
              | none => none
              | some sched =>
                if sched = ScheduleType.hourly then some 24 else some 1 })
    ∧ ∀ (q : InstanceQueryer) (targetAssetKeys : List AssetKey)
        (candidate : AssetKeyPartitionKey),
        canReconcileCandidate g q targetAssetKeys candidate = false →
        candidate.assetKey ∉ targetAssetKeys
        ∨ candidate ∈ q.activeBackfillTargets
        ∨ (g.getParentsPartitions candidate).requiredButNonexistentParentsPartitions.length
            > 0 := by
  have hsome : ∀ k', (getImplicitAutoMaterializePolicy g k').isSome = true := by
    intro k'
    unfold getImplicitAutoMaterializePolicy
    cases g.getAutoMaterializePolicy k' <;> simp
  refine ⟨hsome k, ?_, ?_⟩
  · intro h
    simp [getImplicitAutoMaterializePolicy, h]
  · intro q targetAssetKeys candidate h
    unfold canReconcileCandidate at h
    simp only [Bool.not_eq_false', Bool.or_eq_true,
      decide_eq_true_eq] at h
    rcases h with ((h | h) | h) | h
    · rw [Option.isNone_iff_eq_none] at h
      have hs := hsome candidate.assetKey
      rw [h] at hs
      cases hs
    · exact Or.inl h
    · exact Or.inr (Or.inl h)
    · exact Or.inr (Or.inr h)

/-- C9 witness: the policy-less unpartitioned asset of the concrete graph
gets the implicit default with no rate limit, and a candidate rejected there
is outside the target set. -/
theorem implicitPolicy_witness :
    getImplicitAutoMaterializePolicy gPolicyless "r"
      = some ⟨true, true, true, none⟩
    ∧ (⟨"r", none⟩ : AssetKeyPartitionKey).assetKey ∉ ([] : List AssetKey) := by
  have h := implicitPolicy_default_and_noPolicyBranchNeverRejects gPolicyless "r"
  refine ⟨?_, ?_⟩
  · have h2 := h.2.1 (by decide)
    rw [h2]; decide
  · have h3 := h.2.2 qEmptyStore [] ⟨"r", none⟩ (by decide)
    rcases h3 with h3 | h3 | h3
    · exact h3
    · cases h3
    · cases h3

/-- C2 counterexample: in a one-asset graph whose root asset "r" declares no
auto-materialize policy, a tick on an empty cursor and empty store with "r"
in the target set returns a run request containing "r": the asset receives
the implicit default policy, its Missing condition decides Materialize, and
it is requested, contradicting the claim that such an asset is never
included in run requests. -/
theorem policylessRoot_included_in_runRequests :
    gPolicyless.getAutoMaterializePolicy "r" = none
    ∧ "r" ∈ gPolicyless.rootAssetKeys
    ∧ reconcile gPolicyless ["r"] qEmptyStore AssetReconciliationCursor.empty
        none none false [] 0 2 2
      = .ok ([⟨["r"], none, []⟩], ⟨none, ["r"], [], 1, []⟩) := by
  refine ⟨rfl, by decide, by decide⟩

/-- C2 amended: reconciliation is gated by the target set, not by declared
policies: with auto-observe off and freshness-derived conditions confined to
target assets, an asset outside the target set never appears in any run
request returned by `reconcile` (whereas a targeted root asset with no
declared policy receives the implicit default policy and can be requested). -/
theorem nonTargetAssets_never_in_runRequests (g : AssetGraph)
    (q : InstanceQueryer) (targetAssetKeys : List AssetKey)
    (cursor : AssetReconciliationCursor)
    (materializeRunTags observeRunTags : Option (List (String × String)))
    (conditionsByAssetPartitionForFreshness :
      List (AssetKeyPartitionKey × List AutoMaterializeCondition))
    (observeRequestTimestamp fuel bfsFuel : Nat) (a : AssetKey)
    (rrs : List RunRequest) (c' : AssetReconciliationCursor)
    (ha : a ∉ targetAssetKeys)
    (hfresh : ∀ p ∈ conditionsByAssetPartitionForFreshness,
      p.1.assetKey ∈ targetAssetKeys)
    (hrun : reconcile g targetAssetKeys q cursor materializeRunTags
        observeRunTags false conditionsByAssetPartitionForFreshness
        observeRequestTimestamp fuel bfsFuel = .ok (rrs, c')) :
    ∀ rr ∈ rrs, a ∉ rr.assetSelection := by
  simp only [reconcile, Bool.false_eq_true, if_false, List.append_nil,
    List.foldl_nil] at hrun
  split at hrun
  · cases hrun
  · next materializeRunRequests hb =>
    split at hrun
    · cases hrun
    · next updatedCursor hw =>
      injection hrun with hpair
      injection hpair with hrrs hcursor
      intro rr hrr hmem
      rw [← hrrs] at hrr
      obtain ⟨ap, hap, hk⟩ := buildRunRequests_selection hb rr hrr a hmem
      obtain ⟨p, hp, hfst⟩ := mem_reconcileMaterializeSet hap
      have htgt : p.1.assetKey ∈ targetAssetKeys :=
        determine_conditions_keys hfresh p hp
      rw [hfst, hk] at htgt
      exact ha htgt

/-- C2 amended witness: in the concrete one-asset tick, the non-target asset
"z" is absent from the emitted run request. -/
theorem nonTargetAssets_witness :
    "z" ∉ (⟨["r"], none, []⟩ : RunRequest).assetSelection :=
  nonTargetAssets_never_in_runRequests gPolicyless qEmptyStore ["r"]
    AssetReconciliationCursor.empty none none [] 0 2 2 "z"
    [⟨["r"], none, []⟩] ⟨none, ["r"], [], 1, []⟩ (by decide)
    (by intro p hp; cases hp) (by decide) ⟨["r"], none, []⟩ (by decide)

/-- Base case of the root-unreconciled-ancestors recursion: a non-source
asset partition with no record is its own root unreconciled ancestor. -/
theorem getRootUnreconciledAncestors_of_missing {g : AssetGraph}
    {q : InstanceQueryer} {fuel : Nat} {ap : AssetKeyPartitionKey}
    (hsrc : g.isSource ap.assetKey = false)
    (hnomat : q.assetPartitionHasMaterializationOrObservation ap none = false) :
    getRootUnreconciledAncestors g q (fuel + 1) ap = [ap.assetKey] := by
  simp [getRootUnreconciledAncestors, hsrc, hnomat]

/-- A candidate with no parent partitions is waiting on nothing. -/
theorem getWaitingOnAssetKeys_nil {g : AssetGraph} {q : InstanceQueryer}
    {fuel : Nat}
    {conditionsByAssetPartition :
      List (AssetKeyPartitionKey × List AutoMaterializeCondition)}
    {candidate : AssetKeyPartitionKey}
    (h : (g.getParentsPartitions candidate).parentPartitions = []) :
    getWaitingOnAssetKeys g q fuel conditionsByAssetPartition candidate
      = [] := by
  simp [getWaitingOnAssetKeys, h]

/-- Evaluation of `conditions_for_candidate` for a missing, never
materialized, parentless candidate: the Missing condition fires (plus
ParentMaterialized when the policy reacts to new parent data), and
MaxMaterializationsExceeded is appended exactly when the policy's rate limit
would be exceeded by the requests accumulated so far. -/
theorem conditionsForCandidate_missing_eval (g : AssetGraph)
    (q : InstanceQueryer) (fuel : Nat) (s : ReconciliationState)
    (ap : AssetKeyPartitionKey) (pol : AutoMaterializePolicy)
    (himpl : getImplicitAutoMaterializePolicy g ap.assetKey = some pol)
    (hmiss : pol.onMissing = true)
    (hnomat : q.assetPartitionHasMaterializationOrObservation ap none = false)
    (hsrc : g.isSource ap.assetKey = false)
    (hpar : (g.getParentsPartitions ap).parentPartitions = []) :
    conditionsForCandidate g q (fuel + 1) s ap =
      (let base : List AutoMaterializeCondition :=
        if pol.onNewParentData then [.missing, .parentMaterialized]
        else [.missing]
      if pol.maxMaterializationsPerMinute.isSome
          && decide
              ((unionL
                  (lookupD s.materializationRequestsByAssetKey ap.assetKey [])
                  [ap]).length
                > pol.maxMaterializationsPerMinute.getD 0) then
        base ++ [.maxMaterializationsExceeded]
      else base) := by
  have hroot : getRootUnreconciledAncestors g q (fuel + 1) ap
      = [ap.assetKey] := getRootUnreconciledAncestors_of_missing hsrc hnomat
  cases hb : pol.onNewParentData with
  | true =>
    simp only [conditionsForCandidate, himpl, hmiss, hnomat, hb,
      isReconciled, hroot, getWaitingOnAssetKeys_nil hpar]
    by_cases hrate : pol.maxMaterializationsPerMinute.isSome
        && decide
            ((unionL
                (lookupD s.materializationRequestsByAssetKey ap.assetKey [])
                [ap]).length
              > pol.maxMaterializationsPerMinute.getD 0) = true <;>
      simp [hrate, insertL, willMaterializeForConditions,
        decisionTypeForConditions, AutoMaterializeCondition.decisionType]
  | false =>
    simp only [conditionsForCandidate, himpl, hmiss, hnomat, hb,
      isReconciled, hroot, getWaitingOnAssetKeys_nil hpar]
    by_cases hrate : pol.maxMaterializationsPerMinute.isSome
        && decide
            ((unionL
                (lookupD s.materializationRequestsByAssetKey ap.assetKey [])
                [ap]).length
              > pol.maxMaterializationsPerMinute.getD 0) = true <;>
      simp [hrate, insertL, willMaterializeForConditions,
        decisionTypeForConditions, AutoMaterializeCondition.decisionType]

/-- The traversal with an empty frontier returns the state unchanged. -/
theorem bfsFilterAssetPartitions_nil {g : AssetGraph} {q : InstanceQueryer}
    {targetAssetKeys : List AssetKey} {conditionFuel : Nat} (bfsFuel : Nat)
    (state : ReconciliationState) :
    bfsFilterAssetPartitions g q targetAssetKeys conditionFuel bfsFuel []
      state = state := by
  cases bfsFuel <;> rfl

/-- C4: when an asset's policy sets a rate limit of 1 and two of its
partitions are simultaneously eligible with Materialize-deciding (Missing)
conditions in the same tick, exactly one of them ends up in the per-asset
materialization request set while the other gets MaxMaterializationsExceeded
recorded, forcing its decision to Discard. -/
theorem rateLimitOne_twoPartitions (g : AssetGraph) (q : InstanceQueryer)
    (targetAssetKeys : List AssetKey) (conditionFuel bfsFuel : Nat)
    (X : AssetKey) (k1 k2 : String) (pol : AutoMaterializePolicy)
    (hne : k1 ≠ k2)
    (hpol : g.getAutoMaterializePolicy X = some pol)
    (hmax : pol.maxMaterializationsPerMinute = some 1)
    (hmiss : pol.onMissing = true)
    (hsrc : g.isSource X = false)
    (helig1 : canReconcileCandidate g q targetAssetKeys ⟨X, some k1⟩ = true)
    (helig2 : canReconcileCandidate g q targetAssetKeys ⟨X, some k2⟩ = true)
    (hnomat1 : q.assetPartitionHasMaterializationOrObservation ⟨X, some k1⟩
        none = false)
    (hnomat2 : q.assetPartitionHasMaterializationOrObservation ⟨X, some k2⟩
        none = false)
    (hpar1 : (g.getParentsPartitions ⟨X, some k1⟩).parentPartitions = [])
    (hpar2 : (g.getParentsPartitions ⟨X, some k2⟩).parentPartitions = [])
    (hchild : g.childUnits ⟨X, some k1⟩ = []) :
    lookupD (bfsFilterAssetPartitions g q targetAssetKeys (conditionFuel + 1)
        (bfsFuel + 2) [[⟨X, some k1⟩], [⟨X, some k2⟩]]
        ⟨[], []⟩).materializationRequestsByAssetKey X [] = [⟨X, some k1⟩]
    ∧ AutoMaterializeCondition.maxMaterializationsExceeded ∈
        lookupD (bfsFilterAssetPartitions g q targetAssetKeys
            (conditionFuel + 1) (bfsFuel + 2)
            [[⟨X, some k1⟩], [⟨X, some k2⟩]]
            ⟨[], []⟩).conditionsByAssetPartition ⟨X, some k2⟩ []
    ∧ decisionTypeForConditions
        (lookupD (bfsFilterAssetPartitions g q targetAssetKeys
            (conditionFuel + 1) (bfsFuel + 2)
            [[⟨X, some k1⟩], [⟨X, some k2⟩]]
            ⟨[], []⟩).conditionsByAssetPartition ⟨X, some k2⟩ [])
      = some .discard
    ∧ AutoMaterializeCondition.maxMaterializationsExceeded ∉
        lookupD (bfsFilterAssetPartitions g q targetAssetKeys
            (conditionFuel + 1) (bfsFuel + 2)
            [[⟨X, some k1⟩], [⟨X, some k2⟩]]
            ⟨[], []⟩).conditionsByAssetPartition ⟨X, some k1⟩ [] := by
  have himpl : getImplicitAutoMaterializePolicy g X = some pol := by
    simp [getImplicitAutoMaterializePolicy, hpol]
  have hp12 : (⟨X, some k1⟩ : AssetKeyPartitionKey) ≠ ⟨X, some k2⟩ := by
    simp [hne]
  have hp21 : (⟨X, some k2⟩ : AssetKeyPartitionKey) ≠ ⟨X, some k1⟩ := by
    simp [Ne.symm hne]
  cases hb : pol.onNewParentData with
  | true =>
    have hc1 : conditionsForCandidate g q (conditionFuel + 1) ⟨[], []⟩
        ⟨X, some k1⟩
        = [.missing, .parentMaterialized] := by
      rw [conditionsForCandidate_missing_eval g q conditionFuel ⟨[], []⟩
        ⟨X, some k1⟩ pol himpl hmiss hnomat1 hsrc hpar1]
      simp [hb, hmax, lookupD, lookupL, unionL, insertL]
    have hsr1 : shouldReconcile g q targetAssetKeys (conditionFuel + 1)
        ⟨[], []⟩ [⟨X, some k1⟩]
        = (true, ⟨[(⟨X, some k1⟩, [.missing, .parentMaterialized])],
            [(X, [⟨X, some k1⟩])]⟩) := by
      simp only [shouldReconcile, List.any_cons, List.any_nil, helig1,
        Bool.not_true, Bool.or_false, Bool.false_eq_true, if_false,
        List.foldl_cons, List.foldl_nil, hc1]
      simp [recordUnitConditions, unionL, insertL, updateMapWith, lookupL,
        willMaterializeForConditions, decisionTypeForConditions,
        AutoMaterializeCondition.decisionType]
    have hc2 : conditionsForCandidate g q (conditionFuel + 1)
        ⟨[(⟨X, some k1⟩, [.missing, .parentMaterialized])],
          [(X, [⟨X, some k1⟩])]⟩ ⟨X, some k2⟩
        = [.missing, .parentMaterialized, .maxMaterializationsExceeded] := by
      rw [conditionsForCandidate_missing_eval g q conditionFuel _
        ⟨X, some k2⟩ pol himpl hmiss hnomat2 hsrc hpar2]
      simp [hb, hmax, lookupD, lookupL, unionL, insertL, hp21]
    have hsr2 : shouldReconcile g q targetAssetKeys (conditionFuel + 1)
        ⟨[(⟨X, some k1⟩, [.missing, .parentMaterialized])],
          [(X, [⟨X, some k1⟩])]⟩ [⟨X, some k2⟩]
        = (false,
            ⟨[(⟨X, some k1⟩, [.missing, .parentMaterialized]),
              (⟨X, some k2⟩,
                [.missing, .parentMaterialized,
                  .maxMaterializationsExceeded])],
              [(X, [⟨X, some k1⟩])]⟩) := by
      simp only [shouldReconcile, List.any_cons, List.any_nil, helig2,
        Bool.not_true, Bool.or_false, Bool.false_eq_true, if_false,
        List.foldl_cons, List.foldl_nil, hc2]
      simp [recordUnitConditions, unionL, insertL, updateMapWith, lookupL,
        hp12, willMaterializeForConditions, decisionTypeForConditions,
        AutoMaterializeCondition.decisionType]
    have hbfs : bfsFilterAssetPartitions g q targetAssetKeys
        (conditionFuel + 1) (bfsFuel + 2)
        [[⟨X, some k1⟩], [⟨X, some k2⟩]] ⟨[], []⟩
        = ⟨[(⟨X, some k1⟩, [.missing, .parentMaterialized]),
            (⟨X, some k2⟩,
              [.missing, .parentMaterialized,
                .maxMaterializationsExceeded])],
            [(X, [⟨X, some k1⟩])]⟩ := by
      simp only [bfsFilterAssetPartitions, hsr1, List.foldl_cons,
        List.foldl_nil, hchild, List.append_nil, List.nil_append, if_true]
      simp only [bfsFilterAssetPartitions, hsr2, Bool.false_eq_true,
        if_false]
    rw [hbfs]
    refine ⟨by simp [lookupD, lookupL], ?_, ?_, ?_⟩
    · simp [lookupD, lookupL, hp12]
    · simp [lookupD, lookupL, hp12, decisionTypeForConditions,
        AutoMaterializeCondition.decisionType]
    · simp [lookupD, lookupL]
  | false =>
    have hc1 : conditionsForCandidate g q (conditionFuel + 1) ⟨[], []⟩
        ⟨X, some k1⟩ = [.missing] := by
      rw [conditionsForCandidate_missing_eval g q conditionFuel ⟨[], []⟩
        ⟨X, some k1⟩ pol himpl hmiss hnomat1 hsrc hpar1]
      simp [hb, hmax, lookupD, lookupL, unionL, insertL]
    have hsr1 : shouldReconcile g q targetAssetKeys (conditionFuel + 1)
        ⟨[], []⟩ [⟨X, some k1⟩]
        = (true, ⟨[(⟨X, some k1⟩, [.missing])], [(X, [⟨X, some k1⟩])]⟩) := by
      simp only [shouldReconcile, List.any_cons, List.any_nil, helig1,
        Bool.not_true, Bool.or_false, Bool.false_eq_true, if_false,
        List.foldl_cons, List.foldl_nil, hc1]
      simp [recordUnitConditions, unionL, insertL, updateMapWith, lookupL,
        willMaterializeForConditions, decisionTypeForConditions,
        AutoMaterializeCondition.decisionType]
    have hc2 : conditionsForCandidate g q (conditionFuel + 1)
        ⟨[(⟨X, some k1⟩, [.missing])], [(X, [⟨X, some k1⟩])]⟩ ⟨X, some k2⟩
        = [.missing, .maxMaterializationsExceeded] := by
      rw [conditionsForCandidate_missing_eval g q conditionFuel _
        ⟨X, some k2⟩ pol himpl hmiss hnomat2 hsrc hpar2]
      simp [hb, hmax, lookupD, lookupL, unionL, insertL, hp21]
    have hsr2 : shouldReconcile g q targetAssetKeys (conditionFuel + 1)
        ⟨[(⟨X, some k1⟩, [.missing])], [(X, [⟨X, some k1⟩])]⟩ [⟨X, some k2⟩]
        = (false,
            ⟨[(⟨X, some k1⟩, [.missing]),
              (⟨X, some k2⟩, [.missing, .maxMaterializationsExceeded])],
              [(X, [⟨X, some k1⟩])]⟩) := by
      simp only [shouldReconcile, List.any_cons, List.any_nil, helig2,
        Bool.not_true, Bool.or_false, Bool.false_eq_true, if_false,
        List.foldl_cons, List.foldl_nil, hc2]
      simp [recordUnitConditions, unionL, insertL, updateMapWith, lookupL,
        hp12, willMaterializeForConditions, decisionTypeForConditions,
        AutoMaterializeCondition.decisionType]
    have hbfs : bfsFilterAssetPartitions g q targetAssetKeys
        (conditionFuel + 1) (bfsFuel + 2)
        [[⟨X, some k1⟩], [⟨X, some k2⟩]] ⟨[], []⟩
        = ⟨[(⟨X, some k1⟩, [.missing]),
            (⟨X, some k2⟩, [.missing, .maxMaterializationsExceeded])],
            [(X, [⟨X, some k1⟩])]⟩ := by
      simp only [bfsFilterAssetPartitions, hsr1, List.foldl_cons,
        List.foldl_nil, hchild, List.append_nil, List.nil_append, if_true]
      simp only [bfsFilterAssetPartitions, hsr2, Bool.false_eq_true,
        if_false]
    rw [hbfs]
    refine ⟨by simp [lookupD, lookupL], ?_, ?_, ?_⟩
    · simp [lookupD, lookupL, hp12]
    · simp [lookupD, lookupL, hp12, decisionTypeForConditions,
        AutoMaterializeCondition.decisionType]
    · simp [lookupD, lookupL]

/-- A static two-partition partitions definition used by witnesses. -/
def pdTwoKeys : PartitionsDefinition :=
  { defId := 0
    timeScheduleType := none
    isTimeWindow := false
    isDynamic := false
    lastPartitionKey := some "b"
    partitionKeys := ["a", "b"]
    deserializeSubset := fun _ => some []
    getTagsForPartitionKey := fun _ => [] }

/-- A one-asset graph whose partitioned root asset "X" declares a policy
with a rate limit of 1. -/
def gRateLimited : AssetGraph :=
  { allAssetKeys := ["X"]
    isSource := fun _ => false
    isObservable := fun _ => false
    getPartitionsDef := fun _ => some pdTwoKeys
    getAutoMaterializePolicy := fun _ => some ⟨true, false, true, some 1⟩
    hasDownstreamFreshnessPolicies := fun _ => false
    getParents := fun _ => []
    getChildren := fun _ => []
    getParentsPartitions := fun _ => ⟨[], []⟩
    getChildrenPartitionsOfUnpartitioned := fun _ => []
    getDownstreamPartitions := fun _ _ _ => []
    haveSamePartitioning := fun _ _ => true
    isExternal := false
    getRepositoryHandle := fun _ => 0
    childUnits := fun _ => []
    groupUnits := fun aps => aps.map (fun ap => [ap])
    getAutoObserveIntervalMinutes := fun _ => none }

/-- C4 witness: with the concrete rate-limited asset and its two missing
partitions "a" and "b" processed in one tick, partition "a" is the only
materialization request and partition "b" carries
MaxMaterializationsExceeded with decision Discard. -/
theorem rateLimitOne_witness :
    lookupD (bfsFilterAssetPartitions gRateLimited qEmptyStore ["X"] 1 2
        [[⟨"X", some "a"⟩], [⟨"X", some "b"⟩]]
        ⟨[], []⟩).materializationRequestsByAssetKey "X" []
      = [⟨"X", some "a"⟩]
    ∧ AutoMaterializeCondition.maxMaterializationsExceeded ∈
        lookupD (bfsFilterAssetPartitions gRateLimited qEmptyStore ["X"] 1 2
            [[⟨"X", some "a"⟩], [⟨"X", some "b"⟩]]
            ⟨[], []⟩).conditionsByAssetPartition ⟨"X", some "b"⟩ []
    ∧ decisionTypeForConditions
        (lookupD (bfsFilterAssetPartitions gRateLimited qEmptyStore ["X"] 1 2
            [[⟨"X", some "a"⟩], [⟨"X", some "b"⟩]]
            ⟨[], []⟩).conditionsByAssetPartition ⟨"X", some "b"⟩ [])
      = some .discard
    ∧ AutoMaterializeCondition.maxMaterializationsExceeded ∉
        lookupD (bfsFilterAssetPartitions gRateLimited qEmptyStore ["X"] 1 2
            [[⟨"X", some "a"⟩], [⟨"X", some "b"⟩]]
            ⟨[], []⟩).conditionsByAssetPartition ⟨"X", some "a"⟩ [] :=
  rateLimitOne_twoPartitions gRateLimited qEmptyStore ["X"] 0 0 "X" "a" "b"
    ⟨true, false, true, some 1⟩ (by decide) rfl rfl rfl rfl (by decide)
    (by decide) (by decide) (by decide) rfl rfl rfl

/-- The key of a decoded per-asset subset entry is the decoded user string. -/
theorem deserializeHandledEntry_key {g : AssetGraph} {p : String × String}
    {e : AssetKey × List String} (h : deserializeHandledEntry g p = some e) :
    e.1 = AssetKey.fromUserString p.1 := by
  unfold deserializeHandledEntry at h
  by_cases hm : AssetKey.fromUserString p.1 ∈ g.materializableAssetKeys
  · rw [if_pos hm] at h
    cases hpd : g.getPartitionsDef (AssetKey.fromUserString p.1) with
    | none => simp only [hpd] at h; cases h
    | some pd =>
      simp only [hpd] at h
      cases hds : pd.deserializeSubset p.2 with
      | none => simp only [hds] at h; cases h; rfl
      | some subset => simp only [hds] at h; cases h; rfl
  · rw [if_neg hm] at h; cases h

/-- A key absent from the serialized entries is absent from the decoded
handled map. -/
theorem lookupL_deserializeHandled_not_mem (g : AssetGraph) :
    ∀ (l : List (String × String)) (k : AssetKey),
      k ∉ l.map Prod.fst →
      lookupL (l.filterMap (deserializeHandledEntry g)) k = none := by
  intro l
  induction l with
  | nil => intro k _; rfl
  | cons p t ih =>
    intro k hk
    rw [List.map_cons] at hk
    have hk1 : k ≠ p.1 := fun h => hk (h ▸ List.mem_cons_self _ _)
    have hk2 : k ∉ t.map Prod.fst := fun h => hk (List.mem_cons_of_mem _ h)
    rw [List.filterMap_cons]
    cases hd : deserializeHandledEntry g p with
    | none => exact ih k hk2
    | some e =>
      obtain ⟨e1, e2⟩ := e
      have he1 : e1 = AssetKey.fromUserString p.1 :=
        deserializeHandledEntry_key hd
      have hne : ¬ e1 = k := by
        rw [he1]
        exact fun h => hk1 (h.symm)
      simp only [lookupL, hne, if_false]
      exact ih k hk2

/-- Looking up a serialized entry's key in the decoded handled map yields
exactly the decode of that entry, when the serialized keys are distinct. -/
theorem lookupL_deserializeHandled (g : AssetGraph) :
    ∀ (l : List (String × String)) (keyStr sub : String),
      (l.map Prod.fst).Nodup → (keyStr, sub) ∈ l →
      lookupL (l.filterMap (deserializeHandledEntry g))
          (AssetKey.fromUserString keyStr)
        = (deserializeHandledEntry g (keyStr, sub)).map Prod.snd := by
  intro l
  induction l with
  | nil => intro keyStr sub _ hmem; cases hmem
  | cons p t ih =>
    obtain ⟨p1, p2⟩ := p
    intro keyStr sub hnodup hmem
    rw [List.map_cons, List.nodup_cons] at hnodup
    rw [List.filterMap_cons]
    rcases List.mem_cons.mp hmem with hhead | htail
    · injection hhead with h1 h2
      subst h1
      subst h2
      cases hd : deserializeHandledEntry g (keyStr, sub) with
      | none =>
        simp only [hd]
        exact lookupL_deserializeHandled_not_mem g t _ hnodup.1
      | some e =>
        obtain ⟨e1, e2⟩ := e
        have he1 : e1 = AssetKey.fromUserString keyStr :=
          deserializeHandledEntry_key hd
        simp only [hd, lookupL, he1, if_pos rfl]
        rfl
    · have hkey : keyStr ∈ t.map Prod.fst :=
        List.mem_map.mpr ⟨(keyStr, sub), htail, rfl⟩
      cases hd : deserializeHandledEntry g (p1, p2) with
      | none =>
        simp only [hd]
        exact ih keyStr sub hnodup.2 htail
      | some e =>
        obtain ⟨e1, e2⟩ := e
        have he1 : e1 = AssetKey.fromUserString p1 :=
          deserializeHandledEntry_key hd
        have hne : ¬ e1 = AssetKey.fromUserString keyStr := by
          rw [he1]
          intro hcontra
          have hps : p1 = keyStr := hcontra
          apply hnodup.1
          rw [hps]
          exact hkey
        simp only [hd, lookupL, hne, if_false]
        exact ih keyStr sub hnodup.2 htail

/-- C6: deserialization of a cursor blob (object form or legacy 3- or
4-element array form) never fails on a problematic per-asset partition
subset: when the asset is no longer materializable in the graph, when it has
no partitions definition, or when its partitions definition cannot parse the
stored subset, the asset's effective handled subset in the resulting cursor
is the empty subset and the tick continues. -/
theorem fromSerialized_substitutesEmptySubset (blob : SerializedCursor)
    (g : AssetGraph) (keyStr sub : String)
    (hnodup : (blob.handledRootPartitionsField.map Prod.fst).Nodup)
    (hmem : (keyStr, sub) ∈ blob.handledRootPartitionsField) :
    (AssetKey.fromUserString keyStr ∉ g.materializableAssetKeys →
      lookupD (AssetReconciliationCursor.fromSerialized blob
          g).handledRootPartitionsByAssetKey
        (AssetKey.fromUserString keyStr) [] = [])
    ∧ (g.getPartitionsDef (AssetKey.fromUserString keyStr) = none →
      lookupD (AssetReconciliationCursor.fromSerialized blob
          g).handledRootPartitionsByAssetKey
        (AssetKey.fromUserString keyStr) [] = [])
    ∧ ∀ pd, g.getPartitionsDef (AssetKey.fromUserString keyStr) = some pd →
        pd.deserializeSubset sub = none →
        lookupD (AssetReconciliationCursor.fromSerialized blob
            g).handledRootPartitionsByAssetKey
          (AssetKey.fromUserString keyStr) [] = [] := by
  have hhandled : (AssetReconciliationCursor.fromSerialized blob
        g).handledRootPartitionsByAssetKey
      = blob.handledRootPartitionsField.filterMap
          (deserializeHandledEntry g) := by
    cases blob <;> rfl
  have hlk := lookupL_deserializeHandled g blob.handledRootPartitionsField
    keyStr sub hnodup hmem
  refine ⟨?_, ?_, ?_⟩
  · intro hm
    unfold lookupD
    rw [hhandled, hlk]
    simp [deserializeHandledEntry, hm]
  · intro hpd
    unfold lookupD
    rw [hhandled, hlk]
    by_cases hm : AssetKey.fromUserString keyStr ∈ g.materializableAssetKeys <;>
      simp [deserializeHandledEntry, hm, hpd]
  · intro pd hpd hds
    unfold lookupD
    rw [hhandled, hlk]
    by_cases hm : AssetKey.fromUserString keyStr ∈ g.materializableAssetKeys <;>
      simp [deserializeHandledEntry, hm, hpd, hds]

/-- C6 witness: a legacy 4-element blob holding a subset for an asset that no
longer exists in the graph deserializes to a cursor in which that asset's
effective handled subset is empty. -/
theorem fromSerialized_substitutesEmptySubset_witness :
    lookupD (AssetReconciliationCursor.fromSerialized
        (.legacyArray4 (some 3) ["r"] [("ghost", "oldsubset")] 7)
        gPolicyless).handledRootPartitionsByAssetKey
      (AssetKey.fromUserString "ghost") [] = [] :=
  (fromSerialized_substitutesEmptySubset
      (.legacyArray4 (some 3) ["r"] [("ghost", "oldsubset")] 7) gPolicyless
      "ghost" "oldsubset" (by decide) (by decide)).1 (by decide)

/-- Grouping preserves the invariant that a group with a partition key has a
partitions definition, given that invariant on the input asset partitions. -/
theorem groupStep_partitionsDef_inv (g : AssetGraph) :
    ∀ (assetPartitions : List AssetKeyPartitionKey)
      (acc : List RunRequestGroup),
      (∀ ap ∈ assetPartitions, ap.partitionKey.isSome →
        (g.getPartitionsDef ap.assetKey).isSome) →
      (∀ e ∈ acc, e.1.2.isSome → e.2.1.isSome) →
      ∀ e ∈ assetPartitions.foldl (buildRunRequestsGroupStep g) acc,
        e.1.2.isSome → e.2.1.isSome := by
  intro assetPartitions
  induction assetPartitions with
  | nil => intro acc _ hacc e he; exact hacc e he
  | cons ap t ih =>
    intro acc haps hacc e he
    rw [List.foldl_cons] at he
    refine ih _ (fun ap' h => haps ap' (List.mem_cons_of_mem ap h)) ?_ e he
    intro e' he' hsome
    simp only [buildRunRequestsGroupStep] at he'
    cases hl : lookupL acc
        (Option.map (fun x => x.defId) (g.getPartitionsDef ap.assetKey),
          ap.partitionKey) with
    | none =>
      rw [hl] at he'
      rcases List.mem_append.mp he' with he' | he'
      · exact hacc e' he' hsome
      · rcases List.mem_singleton.mp he' with rfl
        simp only at hsome
        have := haps ap (List.mem_cons_self ap t) hsome
        simpa using this
    | some b =>
      rw [hl] at he'
      rcases List.mem_map.mp he' with ⟨e₀, he₀, heq⟩
      by_cases hkey : e₀.1 =
          (Option.map (fun x => x.defId) (g.getPartitionsDef ap.assetKey),
            ap.partitionKey)
      · rw [if_pos hkey] at heq
        rw [← heq] at hsome ⊢
        exact hacc e₀ he₀ hsome
      · rw [if_neg hkey] at heq
        rw [← heq] at hsome ⊢
        exact hacc e₀ he₀ hsome

/-- Tag correctness of a run request: base tags alone without a partition
key, base tags plus partition-scoped tags with one. -/
def RunRequestTagsOk (runTags : Option (List (String × String)))
    (rr : RunRequest) : Prop :=
  (rr.partitionKey = none → rr.tags = runTags.getD [])
  ∧ ∀ pk, rr.partitionKey = some pk →
      ∃ pd : PartitionsDefinition,
        rr.tags = runTags.getD [] ++ pd.getTagsForPartitionKey pk

/-- The emission fold never fails and produces tag-correct requests when
every group with a partition key has a partitions definition. -/
theorem emitFold_ok (g : AssetGraph)
    (runTags : Option (List (String × String))) :
    ∀ (groups : List RunRequestGroup) (acc : List RunRequest),
      (∀ e ∈ groups, e.1.2.isSome → e.2.1.isSome) →
      (∀ rr ∈ acc, RunRequestTagsOk runTags rr) →
      ∃ rrs, groups.foldlM (buildRunRequestsEmitStep g runTags) acc = .ok rrs
        ∧ ∀ rr ∈ rrs, RunRequestTagsOk runTags rr := by
  intro groups
  induction groups with
  | nil =>
    intro acc _ hacc
    exact ⟨acc, rfl, hacc⟩
  | cons e t ih =>
    intro acc hgroups hacc
    obtain ⟨⟨pdId, pk⟩, pd, assetKeys⟩ := e
    have hcons : List.foldlM (buildRunRequestsEmitStep g runTags) acc
        (((pdId, pk), pd, assetKeys) :: t)
        = (buildRunRequestsEmitStep g runTags acc ((pdId, pk), pd, assetKeys)
            >>= fun acc' =>
              List.foldlM (buildRunRequestsEmitStep g runTags) acc' t) := rfl
    cases pk with
    | none =>
      have hstep : buildRunRequestsEmitStep g runTags acc
          ((pdId, none), pd, assetKeys)
          = .ok (acc ++
              (g.splitAssetKeysByRepository assetKeys).map
                (fun assetKeysInRepo =>
                  ⟨assetKeysInRepo, none, runTags.getD []⟩)) := rfl
      have hacc' : ∀ rr ∈ acc ++
          (g.splitAssetKeysByRepository assetKeys).map
            (fun assetKeysInRepo =>
              (⟨assetKeysInRepo, none, runTags.getD []⟩ : RunRequest)),
          RunRequestTagsOk runTags rr := by
        intro rr hrr
        rcases List.mem_append.mp hrr with h | h
        · exact hacc rr h
        · rcases List.mem_map.mp h with ⟨ks, _, heq⟩
          rw [← heq]
          exact ⟨fun _ => rfl, fun pk h => by cases h⟩
      obtain ⟨rrs, hfold, hP⟩ := ih
        (acc ++
          (g.splitAssetKeysByRepository assetKeys).map
            (fun assetKeysInRepo => ⟨assetKeysInRepo, none, runTags.getD []⟩))
        (fun e' he' => hgroups e' (List.mem_cons_of_mem _ he')) hacc'
      refine ⟨rrs, ?_, hP⟩
      rw [hcons, hstep]
      exact hfold
    | some pkv =>
      have hsome : pd.isSome :=
        hgroups ((pdId, some pkv), pd, assetKeys)
          (List.mem_cons_self _ _) rfl
      cases pd with
      | none => cases hsome
      | some pdv =>
        have hstep : buildRunRequestsEmitStep g runTags acc
            ((pdId, some pkv), some pdv, assetKeys)
            = .ok (acc ++
                (g.splitAssetKeysByRepository assetKeys).map
                  (fun assetKeysInRepo =>
                    ⟨assetKeysInRepo, some pkv,
                      runTags.getD [] ++
                        pdv.getTagsForPartitionKey pkv⟩)) := rfl
        have hacc' : ∀ rr ∈ acc ++
            (g.splitAssetKeysByRepository assetKeys).map
              (fun assetKeysInRepo =>
                (⟨assetKeysInRepo, some pkv,
                  runTags.getD [] ++
                    pdv.getTagsForPartitionKey pkv⟩ : RunRequest)),
            RunRequestTagsOk runTags rr := by
          intro rr hrr
          rcases List.mem_append.mp hrr with h | h
          · exact hacc rr h
          · rcases List.mem_map.mp h with ⟨ks, _, heq⟩
            rw [← heq]
            refine ⟨?_, ?_⟩
            · intro h
              cases h
            · intro pk h
              refine ⟨pdv, ?_⟩
              have hpk : pk = pkv := by
                injection h with h'
                exact h'.symm
              rw [hpk]
        obtain ⟨rrs, hfold, hP⟩ := ih
          (acc ++
            (g.splitAssetKeysByRepository assetKeys).map
              (fun assetKeysInRepo =>
                ⟨assetKeysInRepo, some pkv,
                  runTags.getD [] ++ pdv.getTagsForPartitionKey pkv⟩))
          (fun e' he' => hgroups e' (List.mem_cons_of_mem _ he')) hacc'
        refine ⟨rrs, ?_, hP⟩
        rw [hcons, hstep]
        exact hfold

/-- C10: when every asset partition carrying a partition key belongs to an
asset with a partitions definition, `build_run_requests` never reaches its
`check.failed` branch, and each emitted run request carries partition-scoped
tags exactly when its partition key is set. -/
theorem buildRunRequests_noFailure_and_tags (g : AssetGraph)
    (assetPartitions : List AssetKeyPartitionKey)
    (runTags : Option (List (String × String)))
    (h : ∀ ap ∈ assetPartitions, ap.partitionKey.isSome →
      (g.getPartitionsDef ap.assetKey).isSome) :
    ∃ rrs, buildRunRequests g assetPartitions runTags = .ok rrs
      ∧ ∀ rr ∈ rrs,
          (rr.partitionKey = none → rr.tags = runTags.getD [])
          ∧ ∀ pk, rr.partitionKey = some pk →
              ∃ pd : PartitionsDefinition, rr.tags
                = runTags.getD [] ++ pd.getTagsForPartitionKey pk := by
  have hinv := groupStep_partitionsDef_inv g assetPartitions [] h
    (by intro e he; cases he)
  obtain ⟨rrs, hfold, hP⟩ := emitFold_ok g runTags
    (assetPartitions.foldl (buildRunRequestsGroupStep g) []) [] hinv
    (by intro rr hrr; cases hrr)
  exact ⟨rrs, hfold, hP⟩

/-- C10 witness: the failure branch is not reached on a concrete partitioned
input. -/
theorem buildRunRequests_noFailure_witness :
    (buildRunRequests gRateLimited [⟨"X", some "a"⟩] none).isOk = true := by
  obtain ⟨rrs, hok, _⟩ := buildRunRequests_noFailure_and_tags gRateLimited
    [⟨"X", some "a"⟩] none (by decide)
  rw [hok]
  rfl

instance {β : Type} : IsTrans (String × β) (fun a b => a.1 ≤ b.1) :=
  ⟨fun _ _ _ h1 h2 => le_trans h1 h2⟩

instance {β : Type} : IsTotal (String × β) (fun a b => a.1 ≤ b.1) :=
  ⟨fun a b => le_total a.1 b.1⟩

theorem map_toUserString (l : List AssetKey) :
    l.map AssetKey.toUserString = l :=
  List.map_id' l

theorem map_fromUserString (l : List String) :
    l.map AssetKey.fromUserString = l :=
  List.map_id' l

theorem map_userString_pairs {β : Type} (l : List (String × β)) :
    (l.map (fun p => (AssetKey.fromUserString p.1, p.2))).map
        (fun p => (AssetKey.toUserString p.1, p.2)) = l := by
  rw [List.map_map]
  have hcomp : ((fun (p : String × β) => (AssetKey.toUserString p.1, p.2)) ∘
      fun (p : String × β) => (AssetKey.fromUserString p.1, p.2))
      = fun p => p := by
    funext p
    rfl
  rw [hcomp]
  exact List.map_id' l

theorem canonicalStringSet_idem (l : List String) :
    canonicalStringSet (canonicalStringSet l) = canonicalStringSet l := by
  unfold canonicalStringSet
  have hnd : (List.insertionSort (fun a b => a ≤ b) l.dedup).Nodup :=
    (List.perm_insertionSort (fun a b => a ≤ b) l.dedup).nodup_iff.mpr
      (List.nodup_dedup l)
  rw [List.dedup_eq_self.mpr hnd]
  exact List.Sorted.insertionSort_eq
    (List.sorted_insertionSort (fun a b => a ≤ b) l.dedup)

theorem canonicalAssoc_eq_of_sorted {β : Type} {l : List (String × β)}
    (h : List.Sorted (fun a b => a.1 ≤ b.1) l) : canonicalAssoc l = l :=
  List.Sorted.insertionSort_eq h

theorem sorted_canonicalAssoc {β : Type} (l : List (String × β)) :
    List.Sorted (fun a b => a.1 ≤ b.1) (canonicalAssoc l) :=
  List.sorted_insertionSort (fun a b => a.1 ≤ b.1) l

/-- Decoding and re-encoding the serialized per-asset subsets is the
identity when every entry belongs to a materializable partitioned asset
whose stored subset deserializes and re-serializes to the same payload. -/
theorem decode_encode_entries (g : AssetGraph) :
    ∀ (l : List (String × String)),
      (∀ e ∈ l, ∃ (pd : PartitionsDefinition) (subset2 : List String),
        AssetKey.fromUserString e.1 ∈ g.materializableAssetKeys ∧
        g.getPartitionsDef (AssetKey.fromUserString e.1) = some pd ∧
        pd.deserializeSubset e.2 = some subset2 ∧
        serializeSubset subset2 = e.2) →
      (l.filterMap (deserializeHandledEntry g)).map
          (fun p => (AssetKey.toUserString p.1, serializeSubset p.2)) = l := by
  intro l
  induction l with
  | nil => intro _; rfl
  | cons e t ih =>
    obtain ⟨e1, e2⟩ := e
    intro h
    obtain ⟨pd, s2, hm, hpd, hds, hser⟩ := h (e1, e2) (List.mem_cons_self _ _)
    have hde : deserializeHandledEntry g (e1, e2)
        = some (AssetKey.fromUserString e1, s2) := by
      simp [deserializeHandledEntry, hm, hpd, hds]
    rw [List.filterMap_cons, hde, List.map_cons,
      ih (fun e' he' => h e' (List.mem_cons_of_mem _ he')), hser]
    rfl

/-- The external partitions-definition contract used by the cursor
round-trip (spec section 4.2: serialize is the inverse of deserialize for
the current form): deserializing a serialized subset succeeds and
re-serializes to the same payload. -/
def SubsetRoundtrips (pd : PartitionsDefinition)
    (subset : List String) : Prop :=
  ∃ subset2, pd.deserializeSubset (serializeSubset subset) = some subset2
    ∧ serializeSubset subset2 = serializeSubset subset

/-- The invariant of reachable cursors relative to a graph: every handled
per-asset subset belongs to a materializable asset that has a partitions
definition satisfying the subset round-trip contract.  `empty()` satisfies
it vacuously, `with_updates` only files subsets under assets whose
partitions definition it reads from the graph, and `from_serialized` keeps
only materializable partitioned assets. -/
def GoodCursor (g : AssetGraph) (c : AssetReconciliationCursor) : Prop :=
  ∀ p ∈ c.handledRootPartitionsByAssetKey,
    p.1 ∈ g.materializableAssetKeys ∧
    ∃ pd, g.getPartitionsDef p.1 = some pd ∧ SubsetRoundtrips pd p.2

/-- The empty cursor is reachable-invariant for every graph. -/
theorem goodCursor_empty (g : AssetGraph) :
    GoodCursor g AssetReconciliationCursor.empty := by
  intro p hp
  cases hp

/-- C7: for a reachable cursor (one satisfying the `GoodCursor` invariant
relative to the graph it is deserialized against),
serialize(deserialize(serialize(c))) equals serialize(c). -/
theorem serialize_roundtrip (g : AssetGraph) (c : AssetReconciliationCursor)
    (hc : GoodCursor g c) :
    (AssetReconciliationCursor.fromSerialized (.object c.serialize)
        g).serialize = c.serialize := by
  have hblob : AssetReconciliationCursor.fromSerialized (.object c.serialize) g
      = { latestStorageId := c.serialize.latestStorageId
          handledRootAssetKeys :=
            canonicalStringSet
              (c.serialize.handledRootAssetKeys.map AssetKey.fromUserString)
          handledRootPartitionsByAssetKey :=
            c.serialize.handledRootPartitionsByAssetKey.filterMap
              (deserializeHandledEntry g)
          evaluationId := c.serialize.evaluationId
          lastObserveRequestTimestampByAssetKey :=
            c.serialize.lastObserveRequestTimestampByAssetKey.map
              (fun p => (AssetKey.fromUserString p.1, p.2)) } := rfl
  rw [hblob]
  have hgood : ∀ e ∈ c.serialize.handledRootPartitionsByAssetKey,
      ∃ (pd : PartitionsDefinition) (subset2 : List String),
        AssetKey.fromUserString e.1 ∈ g.materializableAssetKeys ∧
        g.getPartitionsDef (AssetKey.fromUserString e.1) = some pd ∧
        pd.deserializeSubset e.2 = some subset2 ∧
        serializeSubset subset2 = e.2 := by
    intro e he
    have he2 : e ∈ (c.handledRootPartitionsByAssetKey.map
        (fun p => (AssetKey.toUserString p.1, serializeSubset p.2))) := by
      have : c.serialize.handledRootPartitionsByAssetKey
          = canonicalAssoc
              (c.handledRootPartitionsByAssetKey.map
                (fun p => (AssetKey.toUserString p.1, serializeSubset p.2))) :=
        rfl
      rw [this] at he
      unfold canonicalAssoc at he
      rw [List.mem_insertionSort] at he
      exact he
    rcases List.mem_map.mp he2 with ⟨p, hp, heq⟩
    obtain ⟨hmem, pd, hpd, s2, hds, hser⟩ := hc p hp
    refine ⟨pd, s2, ?_, ?_, ?_, ?_⟩
    · rw [← heq]; exact hmem
    · rw [← heq]; exact hpd
    · rw [← heq]; exact hds
    · rw [← heq]; exact hser
  unfold AssetReconciliationCursor.serialize
  simp only [SerializedCursorObjectData.mk.injEq]
  refine ⟨trivial, ?_, ?_, trivial, ?_⟩
  · show canonicalStringSet
        ((canonicalStringSet
          ((canonicalStringSet
            (c.handledRootAssetKeys.map AssetKey.toUserString)).map
              AssetKey.fromUserString)).map AssetKey.toUserString)
      = canonicalStringSet (c.handledRootAssetKeys.map AssetKey.toUserString)
    rw [map_fromUserString, map_toUserString, canonicalStringSet_idem,
      canonicalStringSet_idem]
  · show canonicalAssoc
        (((c.serialize.handledRootPartitionsByAssetKey).filterMap
            (deserializeHandledEntry g)).map
          (fun p => (AssetKey.toUserString p.1, serializeSubset p.2)))
      = c.serialize.handledRootPartitionsByAssetKey
    rw [decode_encode_entries g _ hgood]
    exact canonicalAssoc_eq_of_sorted
      (sorted_canonicalAssoc _)
  · show canonicalAssoc
        ((c.serialize.lastObserveRequestTimestampByAssetKey.map
            (fun p => (AssetKey.fromUserString p.1, p.2))).map
          (fun p => (AssetKey.toUserString p.1, p.2)))
      = c.serialize.lastObserveRequestTimestampByAssetKey
    rw [map_userString_pairs]
    exact canonicalAssoc_eq_of_sorted (sorted_canonicalAssoc _)

/-- A one-partition partitions definition whose subset decoding inverts the
canonical subset encoding, used by the round-trip witness. -/
def pdRoundtrip : PartitionsDefinition :=
  { defId := 1
    timeScheduleType := none
    isTimeWindow := false
    isDynamic := false
    lastPartitionKey := some "p"
    partitionKeys := ["p"]
    deserializeSubset := fun s =>
      if s = "p" then some ["p"] else if s = "" then some [] else none
    getTagsForPartitionKey := fun _ => [] }

/-- A one-asset graph with the round-trip partitions definition. -/
def gRoundtrip : AssetGraph :=
  { allAssetKeys := ["a"]
    isSource := fun _ => false
    isObservable := fun _ => false
    getPartitionsDef := fun _ => some pdRoundtrip
    getAutoMaterializePolicy := fun _ => none
    hasDownstreamFreshnessPolicies := fun _ => false
    getParents := fun _ => []
    getChildren := fun _ => []
    getParentsPartitions := fun _ => ⟨[], []⟩
    getChildrenPartitionsOfUnpartitioned := fun _ => []
    getDownstreamPartitions := fun _ _ _ => []
    haveSamePartitioning := fun _ _ => true
    isExternal := false
    getRepositoryHandle := fun _ => 0
    childUnits := fun _ => []
    groupUnits := fun aps => aps.map (fun ap => [ap])
    getAutoObserveIntervalMinutes := fun _ => none }

/-- A populated reachable cursor for the round-trip witness. -/
def cRoundtrip : AssetReconciliationCursor :=
  { latestStorageId := some 5
    handledRootAssetKeys := ["a"]
    handledRootPartitionsByAssetKey := [("a", ["p"])]
    evaluationId := 2
    lastObserveRequestTimestampByAssetKey := [("a", 7)] }

/-- C7 witness: the round-trip law evaluated on a concrete populated cursor
against its graph. -/
theorem serialize_roundtrip_witness :
    (AssetReconciliationCursor.fromSerialized (.object cRoundtrip.serialize)
        gRoundtrip).serialize = cRoundtrip.serialize :=
  serialize_roundtrip gRoundtrip cRoundtrip (by
    intro p hp
    rcases List.mem_singleton.mp hp with rfl
    exact ⟨by decide, pdRoundtrip, rfl, ["p"], by decide, by decide⟩)

end AssetRecon
